import Mathlib

/-!
# pipeline-cli-go: the link between the command line client and the engine

A shallow embedding of `cli/link.go` and `cli/config.go`.

Conventions of the embedding.

* A Go `string` is a sequence of bytes.  It is represented by a Lean `String` holding one
  character per byte, so that `len`, slicing, `==`, `+`, `strings.HasSuffix` and the
  byte-wise `strings.Replacer` are the corresponding operations on the list of characters.
* A Go `int` is a 64-bit two's complement integer.  It is represented by an `Int`, and the
  additions of the source that can leave the range are wrapped with `wrapInt`.
* A Go `float64` that is only copied from one place to another is represented by a `Rat`.
* A Go `error` is represented by its message; `nil` is `none`.
* What the program reads from its surroundings (answers of the webservice, the command
  line, the file system, subprocesses) is given to the embedded function as data, and what
  it does to its surroundings is returned as a list of `Effect`s, oldest first.
-/

set_option linter.dupNamespace false

/-! ## Types of `github.com/daisy/pipeline-clientlib-go` used by the link -/

/-- The `pipeline.Message` of the client library: one node of a job's message tree
(`Message` holds the child nodes). -/
structure pipeline.Message where
  Sequence : Int
  Content : String
  Level : String
  Message : List pipeline.Message

/-- The `pipeline.Messages` of the client library: the progress of a job and its message forest. -/
structure pipeline.Messages where
  Progress : Rat
  Message : List pipeline.Message

/-- The `pipeline.Job` of the client library, restricted to the fields the link reads. -/
structure pipeline.Job where
  Id : String
  Status : String
  Messages : pipeline.Messages

/-- The `pipeline.Alive` of the client library: the answer of the liveness call. -/
structure pipeline.Alive where
  Version : String
  FsAllow : Bool
  Authentication : Bool
deriving DecidableEq

/-- The `pipeline.Item` of the client library. -/
structure pipeline.Item where
  Value : String
deriving DecidableEq

/-- The `pipeline.Input` of the client library. -/
structure pipeline.Input where
  Name : String
  Items : List pipeline.Item := []
deriving DecidableEq

/-- The `pipeline.Option` of the client library: a named option carrying either a scalar
`Value` or a list of `Items` (the zero values are `""` and the empty list). -/
structure pipeline.Option where
  Name : String := ""
  Value : String := ""
  Items : List pipeline.Item := []
deriving DecidableEq

/-- The `pipeline.Script` of the client library, restricted to the field the link writes. -/
structure pipeline.Script where
  Href : String
deriving DecidableEq

/-- The `pipeline.JobRequest` of the client library, restricted to the fields the link writes. -/
structure pipeline.JobRequest where
  Script : pipeline.Script
  Nicename : String
  Priority : String
  Inputs : List pipeline.Input := []
  Options : List pipeline.Option := []
deriving DecidableEq

/-- The dynamic type of a stylesheet parameter (`param.Type`): the three types the type
switch of `jobRequestToPipeline` names, and any other one, named by a tag. -/
inductive pipeline.ParamType where
  | XsBoolean
  | XsInteger
  | XsNonNegativeInteger
  | other (tag : String)
deriving DecidableEq

/-- The `pipeline.StylesheetParameter` of the client library, restricted to the fields the
link reads. -/
structure pipeline.StylesheetParameter where
  Type_ : pipeline.ParamType
  Value : String
deriving DecidableEq

namespace cli

/-! ## Machine integers -/

/-- Largest value of a Go `int`. -/
def maxInt : Int := 2 ^ 63 - 1

/-- Smallest value of a Go `int`. -/
def minInt : Int := -(2 ^ 63)

/-- The value a Go `int` computation yields for the mathematical result `x`:
two's complement wrap-around on 64 bits. -/
def wrapInt (x : Int) : Int := (x + 2 ^ 63) % 2 ^ 64 - 2 ^ 63

/-! ## Messages sent on the channel (`link.go`, lines 228-236) -/

/-- The `Message` structure of `link.go`; the defaults are Go's zero values. -/
structure Message where
  Message : String := ""
  Level : String := ""
  Depth : Nat := 0
  Status : String := ""
  Progress : Rat := 0
  Error : Option String := none
deriving DecidableEq

/-- One send on the `messages` channel, named after the statement that performs it.
`LogLine` is the send of `flattenMessages` (line 331) and also records the sequence number
of the node it was built from, which the sent structure does not carry; `ProgressOnly` is
the send of line 312, `Terminal` the one of line 315 and `StreamError` the one of line 301. -/
inductive Event where
  | LogLine (seq : Int) (text level : String) (depth : Nat) (status : String) (progress : Rat)
  | ProgressOnly (progress : Rat)
  | Terminal (status : String)
  | StreamError (cause : String)
deriving DecidableEq

/-- The `Message` value an event puts on the channel. -/
def Event.toMessage : Event → Message
  | .LogLine _ text level depth status progress =>
      { Message := text, Level := level, Depth := depth, Status := status, Progress := progress }
  | .ProgressOnly progress => { Progress := progress }
  | .Terminal status => { Status := status }
  | .StreamError cause => { Error := some cause }

/-- An event that ends the stream: the status-only or the error-carrying one. -/
def Event.isFinal : Event → Bool
  | .Terminal _ => true
  | .StreamError _ => true
  | _ => false

/-- The sequence number of a log line, nothing for the other events. -/
def Event.seq? : Event → Option Int
  | .LogLine seq _ _ _ _ _ => some seq
  | _ => none

/-- The sequence numbers of the log lines of a stream, in the order of delivery. -/
def logSeqs (events : List Event) : List Int := events.filterMap Event.seq?

/-! ## `flattenMessages` (`link.go`, lines 326-344) -/

/-- Lines 329-335: the test of a node's sequence number against `firstSeq`, the send of its
log line and the update of the running maximum `lastSeq`. -/
def flattenOwn (status : String) (progress : Rat) (firstSeq : Int)
    (seq : Int) (content level : String) (depth : Nat) (lastSeq : Int) : List Event × Int :=
  if seq ≥ firstSeq then
    ([Event.LogLine seq content level depth status progress],
      if seq > lastSeq then seq else lastSeq)
  else ([], lastSeq)

mutual
/-- One iteration of the `range` loop of `flattenMessages` on the node `msg`, entered with
the running maximum `lastSeq`: the events sent and the new running maximum. -/
def flattenMessage (status : String) (progress : Rat) (firstSeq : Int) :
    pipeline.Message → Nat → Int → List Event × Int
  | ⟨seq, content, level, children⟩, depth, lastSeq =>
    let own := flattenOwn status progress firstSeq seq content level depth lastSeq
    if children.length > 0 then
      let sub := flattenLoop status progress firstSeq children (depth + 1) (-1)
      (own.1 ++ sub.1, if sub.2 > own.2 then sub.2 else own.2)
    else own
termination_by structural msg => msg
/-- The `range` loop of `flattenMessages` over `frm`, entered with the running maximum
`lastSeq` (the source starts it at `-1`). -/
def flattenLoop (status : String) (progress : Rat) (firstSeq : Int) :
    List pipeline.Message → Nat → Int → List Event × Int
  | [], _, lastSeq => ([], lastSeq)
  | msg :: rest, depth, lastSeq =>
    let head := flattenMessage status progress firstSeq msg depth lastSeq
    let tail := flattenLoop status progress firstSeq rest depth head.2
    (head.1 ++ tail.1, tail.2)
termination_by structural frm => frm
end

/-- The function `flattenMessages`: the events sent to the channel and the returned `lastSeq`. -/
def flattenMessages (frm : List pipeline.Message) (status : String) (progress : Rat)
    (firstSeq : Int) (depth : Nat) : List Event × Int :=
  flattenLoop status progress firstSeq frm depth (-1)

/-! ## `getAsyncMessages` (`link.go`, lines 296-322) -/

/-- What a run of `getAsyncMessages` has done once the given answers of the webservice are
used up: the events sent, the cursor passed to each call of `Job`, whether the channel has
been closed (if not, the loop is about to poll again), and the value of `msgSeq`. -/
structure Stream where
  events : List Event
  cursors : List Int
  closed : Bool
  msgSeq : Int
deriving DecidableEq

/-- The status test of line 314. -/
def isTerminalStatus (status : String) : Bool :=
  status == "SUCCESS" || status == "ERROR" || status == "FAIL"

/-- Lines 305-313: the part of one iteration between a successful poll and the status test.
Returns the events sent and the new value of `msgSeq`. -/
def pollRound (msgSeq : Int) (job : pipeline.Job) : List Event × Int :=
  let flat : List Event × Int :=
    if job.Messages.Message.length > 0 then
      flattenMessages job.Messages.Message job.Status job.Messages.Progress
        (wrapInt (msgSeq + 1)) 0
    else ([], msgSeq)
  let n := flat.2
  if n > msgSeq then (flat.1, n)
  else (flat.1 ++ [Event.ProgressOnly job.Messages.Progress], msgSeq)

/-- The `for` loop of `getAsyncMessages`, entered with the cursor `msgSeq`, run against the
successive results of `p.pipeline.Job(jobId, msgSeq)` (an error, or a job). -/
def getAsyncMessagesLoop : List (Except String pipeline.Job) → Int → Stream
  | [], msgSeq => { events := [], cursors := [], closed := false, msgSeq := msgSeq }
  | .error err :: _, msgSeq =>
      { events := [Event.StreamError err], cursors := [msgSeq], closed := true, msgSeq := msgSeq }
  | .ok job :: rest, msgSeq =>
    let round := pollRound msgSeq job
    if isTerminalStatus job.Status then
      { events := round.1 ++ [Event.Terminal job.Status], cursors := [msgSeq], closed := true,
        msgSeq := round.2 }
    else
      let later := getAsyncMessagesLoop rest round.2
      { later with events := round.1 ++ later.events, cursors := msgSeq :: later.cursors }

/-- The function `getAsyncMessages`, run against the successive results `polls` of its calls
to `p.pipeline.Job`. -/
def getAsyncMessages (polls : List (Except String pipeline.Job)) : Stream :=
  getAsyncMessagesLoop polls (-1)

/-- The jobs among the poll results. -/
def okJobs : List (Except String pipeline.Job) → List pipeline.Job
  | [] => []
  | .ok job :: rest => job :: okJobs rest
  | .error _ :: rest => okJobs rest

mutual
/-- The sequence numbers of a node and its descendants, depth first, parent before children. -/
def preorderOf : pipeline.Message → List Int
  | ⟨seq, _, _, children⟩ => seq :: preorder children
termination_by structural msg => msg
/-- The sequence numbers of a message forest, depth first, in the original order. -/
def preorder : List pipeline.Message → List Int
  | [] => []
  | msg :: rest => preorderOf msg ++ preorder rest
termination_by structural frm => frm
end

/-- A poll result after which `getAsyncMessages` closes the channel: an error, or a job in
one of the three final states. -/
def endsStream : Except String pipeline.Job → Bool
  | .error _ => true
  | .ok job => isTerminalStatus job.Status

/-! ## How a call ends -/

/-- The ways a Go call ends: it returns, it panics, or it ends the process with `os.Exit`. -/
inductive Outcome (α : Type) where
  | ret (a : α)
  | panic (msg : String)
  | exit (code : Int)
deriving DecidableEq

/-- Sequencing: what follows a call runs only if the call returns. -/
def Outcome.bind {α β : Type} : Outcome α → (α → Outcome β) → Outcome β
  | .ret a, f => f a
  | .panic msg, _ => .panic msg
  | .exit code, _ => .exit code

/-! ## The webservice seen from the link (`PipelineApi`, `link.go`, lines 23-48) -/

/-- The answers the `PipelineApi` object gives during one run: the value of `ScriptUrl`,
the result of `Alive`, the result of `JobRequest`, and the results of the successive calls
of `Job` for the submitted job. -/
structure PipelineApi where
  ScriptUrl : String → String
  Alive : Except String pipeline.Alive
  JobRequest : pipeline.JobRequest → List Nat → Except String pipeline.Job
  Job : List (Except String pipeline.Job)

/-! ## The configuration (`config.go`) -/

/-- A value held by the configuration map, whose values are of type `interface{}`: nothing
(the key is absent), a string, an integer, a boolean, or a value of another type, given by
its rendering under the `%v` verb. -/
inductive ConfigValue where
  | nil
  | str (s : String)
  | int (n : Int)
  | bool (b : Bool)
  | other (shown : String)
deriving DecidableEq

/-- The type `Config`, "just a map": the value found under each key. -/
abbrev Config := String → ConfigValue

/-- The configuration key `host`. -/
def HOST : String := "host"
/-- The configuration key `port`. -/
def PORT : String := "port"
/-- The configuration key `ws_path`. -/
def PATH : String := "ws_path"
/-- The configuration key `app_path`. -/
def APPPATH : String := "app_path"
/-- The configuration key `client_key`. -/
def CLIENTKEY : String := "client_key"
/-- The configuration key `client_secret`. -/
def CLIENTSECRET : String := "client_secret"
/-- The configuration key `debug`. -/
def DEBUG : String := "debug"
/-- The configuration key `starting`. -/
def STARTING : String := "starting"

/-- The type assertion `v.(string)`. -/
def ConfigValue.assertString : ConfigValue → Outcome String
  | .str s => .ret s
  | _ => .panic "interface conversion: interface {} is not string"

/-- The type assertion `v.(bool)`. -/
def ConfigValue.assertBool : ConfigValue → Outcome Bool
  | .bool b => .ret b
  | _ => .panic "interface conversion: interface {} is not bool"

/-! ## The link (`link.go`, lines 50-57) -/

/-- The structure `PipelineLink`. -/
structure PipelineLink where
  pipeline : PipelineApi
  config : Config
  Version : String
  Authentication : Bool
  FsAllow : Bool

/-! ## Job requests -/

/-- Modelled from the spec: the caller-facing `JobRequest` type, which `link.go` uses and
does not declare ("scriptId, niceName, priority, inputs: mapping name→ordered sequence of
value, options: mapping name→ordered sequence of string, stylesheetParameters: mapping
name→(type, value), payload bytes, background: bool"), under the field names `link.go`
reads.  Each Go map is given as the list of its entries in the order in which the `range`
statement visits them in this run, an order Go leaves unspecified; an input value is given
by what its `String` method returns. -/
structure JobRequest where
  Script : String
  Nicename : String
  Priority : String
  Options : List (String × List String)
  Inputs : List (String × List String)
  StylesheetParameters : List (String × pipeline.StylesheetParameter)
  Data : List Nat
  Background : Bool

/-- The entries of a Go map carry pairwise different keys. -/
def distinctKeys {α : Type} (entries : List (String × α)) : Prop :=
  (entries.map Prod.fst).Nodup

instance {α : Type} (entries : List (String × α)) : Decidable (distinctKeys entries) := by
  unfold distinctKeys
  infer_instance

/-! ## `jobRequestToPipeline` (`link.go`, lines 346-412) -/

/-- Lines 354-357 and 364-366: `append` of one item per value to an empty item list. -/
def appendItems (values : List String) : List pipeline.Item :=
  values.foldl (fun items value => items ++ [{ Value := value }]) []

/-- Lines 353-359: the loop over the inputs, entered with the inputs built so far. -/
def inputsLoop : List (String × List String) → List pipeline.Input → List pipeline.Input
  | [], inputs => inputs
  | (name, values) :: rest, inputs =>
    inputsLoop rest (inputs ++ [{ Name := name, Items := appendItems values }])

/-- Lines 362-369: the wire option built from one entry of `req.Options`.  Reading
`values[0]` of an empty list panics. -/
def buildOption (name : String) (values : List String) : Outcome pipeline.Option :=
  if values.length > 1 then
    .ret { Name := name, Items := appendItems values }
  else
    match values with
    | value :: _ => .ret { Name := name, Value := value }
    | [] => .panic "runtime error: index out of range [0] with length 0"

/-- Lines 361-375: the loop over the options, entered with the current value of
`stylesheetParametersOption` and the options appended to `pReq.Options` so far. -/
def optionsLoop : List (String × List String) → pipeline.Option → List pipeline.Option →
    Outcome (pipeline.Option × List pipeline.Option)
  | [], stylesheetParametersOption, options => .ret (stylesheetParametersOption, options)
  | (name, values) :: rest, stylesheetParametersOption, options =>
    (buildOption name values).bind fun option =>
      if name = "stylesheet-parameters" then optionsLoop rest option options
      else optionsLoop rest stylesheetParametersOption (options ++ [option])

/-- The replacer `strings.NewReplacer(old1, new1, old2, new2, ...)` for old strings of one
byte each, applied to the bytes of a string: each byte equal to an old string is replaced
by the new string of the first such pair, the other bytes are kept. -/
def replacerReplace (oldnew : List (Char × String)) : List Char → List Char
  | [] => []
  | c :: rest =>
    (match oldnew.lookup c with
      | some new => new.toList
      | none => [c]) ++ replacerReplace oldnew rest

/-- Lines 385-388: `strings.NewReplacer("\n", "\\A ", "'", "\\27 ").Replace(value)`. -/
def cssEscape (value : String) : String :=
  String.mk (replacerReplace [(Char.ofNat 10, "\\A "), (Char.ofNat 39, "\\27 ")] value.toList)

/-- Lines 378-389: the entry of one stylesheet parameter. -/
def paramEntry (name : String) (param : pipeline.StylesheetParameter) : String :=
  match param.Type_ with
  | .XsBoolean => name ++ ": " ++ param.Value
  | .XsInteger => name ++ ": " ++ param.Value
  | .XsNonNegativeInteger => name ++ ": " ++ param.Value
  | .other _ => name ++ ": '" ++ cssEscape param.Value ++ "'"

/-- Lines 376-390: the loop over the stylesheet parameters, entered with `params`. -/
def paramsLoop : List (String × pipeline.StylesheetParameter) → List String → List String
  | [], params => params
  | (name, param) :: rest, params => paramsLoop rest (params ++ [paramEntry name param])

/-- Line 392: `fmt.Sprintf("(%s)", strings.Join(params, ", "))`. -/
def paramsLiteral (params : List String) : String :=
  "(" ++ ", ".intercalate params ++ ")"

/-- Lines 391-407: the merge of the synthesized literal into `stylesheetParametersOption`. -/
def mergeParams (stylesheetParametersOption : pipeline.Option) (params : List String) :
    pipeline.Option :=
  if params.length > 0 then
    let value := paramsLiteral params
    if stylesheetParametersOption.Name = "" then
      { Name := "stylesheet-parameters", Value := value }
    else
      let moved : pipeline.Option :=
        if stylesheetParametersOption.Value ≠ "" then
          { stylesheetParametersOption with
            Items := stylesheetParametersOption.Items ++
              [{ Value := stylesheetParametersOption.Value }],
            Value := "" }
        else stylesheetParametersOption
      { moved with Items := moved.Items ++ [{ Value := value }] }
  else stylesheetParametersOption

/-- The function `jobRequestToPipeline`, given the value `href` of
`p.pipeline.ScriptUrl(req.Script)`: the returned pair of the wire request and the error. -/
def jobRequestToPipelineAt (href : String) (req : JobRequest) :
    Outcome (pipeline.JobRequest × Option String) :=
  let inputs := inputsLoop req.Inputs []
  (optionsLoop req.Options {} []).bind fun (stylesheetParametersOption, options) =>
    let params := paramsLoop req.StylesheetParameters []
    let merged := mergeParams stylesheetParametersOption params
    let options := if merged.Name ≠ "" then options ++ [merged] else options
    .ret ({ Script := { Href := href }, Nicename := req.Nicename, Priority := req.Priority,
            Inputs := inputs, Options := options }, none)

/-- The function `jobRequestToPipeline`. -/
def jobRequestToPipeline (req : JobRequest) (p : PipelineLink) :
    Outcome (pipeline.JobRequest × Option String) :=
  jobRequestToPipelineAt (p.pipeline.ScriptUrl req.Script) req

/-- The wire form of an option with at least one value (lines 362-369). -/
def wireOption (name : String) (values : List String) : pipeline.Option :=
  if values.length > 1 then { Name := name, Items := values.map pipeline.Item.mk }
  else { Name := name, Value := values.headD "" }

/-- The text obtained from `value` by replacing every byte `old` by the text `new`. -/
def replaceEvery (old : Char) (new : String) (value : String) : String :=
  String.mk (value.toList.flatMap fun c => if c = old then new.toList else [c])

/-- The entry of a stylesheet parameter as the specification words it: unquoted for the
boolean, integer and non-negative integer types, otherwise between single quotes with
every newline replaced by `\A ` and every single quote by `\27 `. -/
def specEntry (name : String) (param : pipeline.StylesheetParameter) : String :=
  if param.Type_ = .XsBoolean ∨ param.Type_ = .XsInteger ∨ param.Type_ = .XsNonNegativeInteger
  then name ++ ": " ++ param.Value
  else name ++ ": '" ++
    replaceEvery (Char.ofNat 39) "\\27 " (replaceEvery (Char.ofNat 10) "\\A " param.Value) ++ "'"

/-- The wire options of the entries not named "stylesheet-parameters", in the order visited. -/
def ordinaryOptions (entries : List (String × List String)) : List pipeline.Option :=
  (entries.filter fun nv => nv.1 ≠ "stylesheet-parameters").map fun nv => wireOption nv.1 nv.2

/-- The value of `stylesheetParametersOption` after the loop over the options, entered
with `start`: the wire option of the last entry named "stylesheet-parameters", if any. -/
def withheldOption (entries : List (String × List String)) (start : pipeline.Option) :
    pipeline.Option :=
  entries.foldl
    (fun current nv => if nv.1 = "stylesheet-parameters" then wireOption nv.1 nv.2 else current)
    start

/-- The synthesized literal of a request as the specification words it. -/
def specLiteral (entries : List (String × pipeline.StylesheetParameter)) : String :=
  "(" ++ ", ".intercalate (entries.map fun np => specEntry np.1 np.2) ++ ")"

/-- The literal synthesized from the stylesheet parameters of a request (the `value` of
line 392). -/
def synthesizedLiteral (req : JobRequest) : String :=
  paramsLiteral (paramsLoop req.StylesheetParameters [])

/-! ## The surroundings of the process -/

/-- How a subprocess started by `cmd.Run()` went: it could not be run at all (the error
`Run` returns), or it ran and ended with an exit code (`-1` if ended by a signal). -/
inductive RunResult where
  | failed (err : String)
  | exited (code : Int)
deriving DecidableEq

/-- The error `cmd.Run()` returns: none exactly when the subprocess ran and ended with
exit code zero (package `os/exec`). -/
def RunResult.err : RunResult → Option String
  | .failed err => some err
  | .exited code => if code = 0 then none else some ("exit status " ++ toString code)

/-- The value of `cmd.ProcessState.ExitCode()` after `cmd.Run()`. -/
def RunResult.ExitCode : RunResult → Int
  | .failed _ => -1
  | .exited code => code

/-- What the process finds around it during one run: the command line after the program
name (`os.Args[1:]`; `os.Args` itself is the program name followed by `Args`), the value
of `runtime.GOOS`, the result of `osext.ExecutableFolder()`, the results of
`exec.LookPath` and of `filepath.IsAbs`, how the subprocess of `exec.Command(path, args...)`
goes, and the result of `NewPipelineLauncher(api, path, 10).Launch(os.Stdout)`, a function
of this repository that `link.go` calls and does not define. -/
structure Env where
  Args : List String
  GOOS : String
  ExecutableFolder : Except String String
  LookPath : String → Except String String
  IsAbs : String → Bool
  Run : String → List String → RunResult
  Launch : String → Except String pipeline.Alive

/-- What a call does to its surroundings. -/
inductive Effect where
  | SetUrl (url : String)
  | SetCredentials (key secret : String)
  | Run (path : String) (args : List String)
  | Launch (path : String)
deriving DecidableEq

/-- A call seen from outside: what it did to the surroundings, oldest first, and how it ended. -/
structure Call (α : Type) where
  effects : List Effect
  outcome : Outcome α

/-- A call without effect. -/
def Call.of {α : Type} (outcome : Outcome α) : Call α := { effects := [], outcome := outcome }

/-- A call that performs one effect and returns. -/
def Call.perform (effect : Effect) : Call Unit := { effects := [effect], outcome := .ret () }

/-- Sequencing of calls: the second runs only if the first returns. -/
def Call.bind {α β : Type} (first : Call α) (next : α → Call β) : Call β :=
  match first.outcome with
  | .ret a => { effects := first.effects ++ (next a).effects, outcome := (next a).outcome }
  | .panic msg => { effects := first.effects, outcome := .panic msg }
  | .exit code => { effects := first.effects, outcome := .exit code }

instance : Monad Call where
  pure a := Call.of (.ret a)
  bind := Call.bind

/-! ## `Url`, `ExecPath` and `buildPath` (`config.go`, lines 128-167) -/

/-- The rendering of a configuration value by the `%v` verb. -/
def ConfigValue.format : ConfigValue → String
  | .nil => "<nil>"
  | .str s => s
  | .int n => toString n
  | .bool b => if b then "true" else "false"
  | .other shown => shown

/-- The method `Config.Url`: `fmt.Sprintf("%v:%v/%v/", c[HOST], c[PORT], c[PATH])`. -/
def Config.Url (c : Config) : String :=
  (c HOST).format ++ ":" ++ (c PORT).format ++ "/" ++ (c PATH).format ++ "/"

/-- The test `strings.HasSuffix(s, suffix)`. -/
def hasSuffix (s suffix : String) : Bool := suffix.toList.isSuffixOf s.toList

/-- The slice expression `s[low:]`, which panics when `low` is outside `0..len(s)`. -/
def sliceFrom (s : String) (low : Int) : Outcome String :=
  if 0 ≤ low ∧ low ≤ s.length then .ret (String.mk (s.toList.drop low.toNat))
  else .panic "runtime error: slice bounds out of range"

/-- The constant `filepath.Separator`: a backslash on Windows, a slash elsewhere. -/
def Separator (goos : String) : Char := if goos = "windows" then '\\' else '/'

/-- The function `filepath.FromSlash`: every slash becomes the separator. -/
def FromSlash (goos : String) (path : String) : String :=
  if Separator goos = '/' then path
  else String.mk (path.toList.map fun c => if c = '/' then Separator goos else c)

/-- The extensions `buildPath` recognizes on Windows (line 152). -/
def winExt : List String := [".exe", ".bat", ".cmd", ".ps1"]

/-- The method `Config.buildPath`. -/
def Config.buildPath (env : Env) (c : Config) (base : String) : Outcome String :=
  (c APPPATH).assertString.bind fun configured =>
    let execpath := if configured = "" then "DAISY Pipeline" else configured
    (if env.GOOS = "windows" then
        (sliceFrom execpath ((execpath.length : Int) - 4)).bind fun ext =>
          if !winExt.contains ext then .ret (execpath ++ ".exe") else .ret execpath
      else .ret execpath).bind fun execpath =>
      match env.LookPath execpath with
      | .ok path => .ret (FromSlash env.GOOS path)
      | .error _ =>
        let p := FromSlash env.GOOS execpath
        if env.IsAbs p then .ret p
        else .ret (base ++ String.singleton (Separator env.GOOS) ++ p)

/-- The method `Config.ExecPath`. -/
def Config.ExecPath (env : Env) (c : Config) : Outcome String :=
  match env.ExecutableFolder with
  | .error _ => .panic "Error getting executable path"
  | .ok base => c.buildPath env base

/-! ## `bringUp` and `Init` (`link.go`, lines 70-140) -/

/-- Lines 136-138: the link filled from the answer of the liveness call. -/
def setValues (pLink : PipelineLink) (alive : pipeline.Alive) : PipelineLink :=
  { pLink with Version := alive.Version, FsAllow := alive.FsAllow,
               Authentication := alive.Authentication }

/-- The test of line 100 on the command line: `--port` or `--host` is one of the arguments. -/
def pinnedEndpoint (args : List String) : Bool :=
  args.contains "--port" || args.contains "--host"

/-- The error of line 132: the webservice does not answer and the link may not start one. -/
def unreachable (err : String) : String :=
  "Could not connect to the webservice and I'm not configured to start one\n\tError: " ++ err

/-- The error of line 117. -/
def couldNotUse (err : String) : String := "Could not use the pipeline app: " ++ err

/-- The error of line 128. -/
def couldNotLaunch (err : String) : String := "Error bringing the pipeline2 up " ++ err

/-- Lines 105-108: the arguments forwarded to the host binary, `help` when the command line
holds the program name only. -/
def forwardArgs (args : List String) : List String :=
  if args.length + 1 = 1 then args ++ ["help"] else args

/-- Lines 109-112: the path of the host binary, as `exec.LookPath` resolves it if it does. -/
def forwardPath (env : Env) (execpath : String) : String :=
  match env.LookPath execpath with
  | .ok absPath => absPath
  | .error _ => execpath

/-- The test of line 104: the path ends with the name of the host binary. -/
def namesHostBinary (execpath : String) : Bool :=
  hasSuffix execpath "DAISY Pipeline" || hasSuffix execpath "DAISY Pipeline.exe"

/-- The function `bringUp`: the link after the call and the error returned. -/
def bringUp (env : Env) (pLink : PipelineLink) : Call (PipelineLink × Option String) :=
  match pLink.pipeline.Alive with
  | .ok alive => pure (setValues pLink alive, none)
  | .error err => do
    let starting ← Call.of (pLink.config STARTING).assertBool
    if starting && !pinnedEndpoint env.Args then
      let execpath ← Call.of (pLink.config.ExecPath env)
      if namesHostBinary execpath then
        let args := forwardArgs env.Args
        let absPath := forwardPath env execpath
        Call.perform (.Run absPath args)
        match (env.Run absPath args).err with
        | some err => pure (pLink, some (couldNotUse err))
        | none => Call.of (.exit (env.Run absPath args).ExitCode)
      else
        Call.perform (.Launch execpath)
        match env.Launch execpath with
        | .error err => pure (pLink, some (couldNotLaunch err))
        | .ok alive => pure (setValues pLink alive, none)
    else
      pure (pLink, some (unreachable err))

/-- The error of line 79. -/
def missingCredentials : String :=
  "link: Authentication required but client_key and client_secret are not set. Please, check the configuration"

/-- The condition of line 78, `len(key.(string)) > 0 && len(secret.(string)) > 0`, the
second assertion being evaluated only if the first length is positive. -/
def credentialsSet (c : Config) : Outcome Bool :=
  (c CLIENTKEY).assertString.bind fun key =>
    if key.length > 0 then
      (c CLIENTSECRET).assertString.bind fun secret => .ret (decide (secret.length > 0))
    else .ret false

/-- The method `PipelineLink.Init`: the link after the call and the error returned. -/
def PipelineLink.Init (env : Env) (p : PipelineLink) : Call (PipelineLink × Option String) := do
  Call.perform (.SetUrl p.config.Url)
  let (p, err) ← bringUp env p
  if err ≠ none then
    pure (p, err)
  else if p.Authentication then
    let set ← Call.of (credentialsSet p.config)
    if !set then
      pure (p, some missingCredentials)
    else
      let key ← Call.of (p.config CLIENTKEY).assertString
      let secret ← Call.of (p.config CLIENTSECRET).assertString
      Call.perform (.SetCredentials key secret)
      pure (p, none)
  else
    pure (p, none)

/-- The credentials forwarded to the webservice by `SetCredentials`, oldest first. -/
def credentialsForwarded (effects : List Effect) : List (String × String) :=
  effects.filterMap fun
    | .SetCredentials key secret => some (key, secret)
    | _ => none

/-- The subprocesses run and the engines launched, oldest first. -/
def processesStarted (effects : List Effect) : List Effect :=
  effects.filter fun
    | .Run _ _ => true
    | .Launch _ => true
    | _ => false

/-! ## `Execute` (`link.go`, lines 264-283) -/

/-- A channel of messages seen from its receiving end: the events delivered on it, oldest
first, and whether it has been closed. -/
structure Channel where
  events : List Event
  closed : Bool
deriving DecidableEq

/-- The zero value of `pipeline.Job`. -/
def zeroJob : pipeline.Job :=
  { Id := "", Status := "", Messages := { Progress := 0, Message := [] } }

/-- What `Execute` returns, and what becomes of it: the job, the channel (`none` is the nil
channel) with everything `getAsyncMessages` delivers on it, the error, and the cursors of
the calls of `Job` made for the job, oldest first.  On the two error returns the job is
given as the zero value. -/
structure Executed where
  job : pipeline.Job
  messages : Option Channel
  err : Option String
  polled : List Int

/-- The method `PipelineLink.Execute`.  The goroutine started for a job that is not a
background job is given by the whole run of `getAsyncMessages` against the answers
`p.pipeline.Job` of the webservice. -/
def PipelineLink.Execute (p : PipelineLink) (jobReq : JobRequest) : Outcome Executed :=
  (jobRequestToPipeline jobReq p).bind fun (req, err) =>
    if err ≠ none then
      .ret { job := zeroJob, messages := none, err := err, polled := [] }
    else
      match p.pipeline.JobRequest req jobReq.Data with
      | .error err => .ret { job := zeroJob, messages := none, err := some err, polled := [] }
      | .ok job =>
        if !jobReq.Background then
          let run := getAsyncMessages p.pipeline.Job
          .ret { job := job, messages := some { events := run.events, closed := run.closed },
                 err := none, polled := run.cursors }
        else
          .ret { job := job, messages := some { events := [], closed := true },
                 err := none, polled := [] }

/-! ## Notions used to state the properties of the message stream -/

mutual
/-- The nodes of a tree with their nesting level, the root being at level `depth`: the node
itself, then the nodes of its children in the original order. -/
def nodesOf : pipeline.Message → Nat → List (Nat × pipeline.Message)
  | ⟨seq, content, level, children⟩, depth =>
    (depth, ⟨seq, content, level, children⟩) :: nodes children (depth + 1)
termination_by structural msg => msg
/-- The nodes of a forest with their nesting level, depth first, in the original order, the
roots being at level `depth`. -/
def nodes : List pipeline.Message → Nat → List (Nat × pipeline.Message)
  | [], _ => []
  | msg :: rest, depth => nodesOf msg depth ++ nodes rest depth
termination_by structural frm => frm
end

/-- The log line of a node at a nesting level, tagged with a status and a progress. -/
def logLineOf (status : String) (progress : Rat) (node : Nat × pipeline.Message) : Event :=
  Event.LogLine node.2.Sequence node.2.Content node.2.Level node.1 status progress

/-- The successful poll rounds of `getAsyncMessagesLoop`, oldest first: the value of `msgSeq`
with which the round is entered and the job the poll returned. -/
def roundStatesLoop : List (Except String pipeline.Job) → Int → List (Int × pipeline.Job)
  | [], _ => []
  | .error _ :: _, _ => []
  | .ok job :: rest, msgSeq =>
    (msgSeq, job) ::
      (if isTerminalStatus job.Status then []
        else roundStatesLoop rest (pollRound msgSeq job).2)

/-- The successful poll rounds of `getAsyncMessages`, oldest first. -/
def roundStates (polls : List (Except String pipeline.Job)) : List (Int × pipeline.Job) :=
  roundStatesLoop polls (-1)

/-- The events sent in each successful poll round of `getAsyncMessages`, before the status
test of line 314, oldest round first. -/
def rounds (polls : List (Except String pipeline.Job)) : List (List Event) :=
  (roundStates polls).map fun state => (pollRound state.1 state.2).1

/-- The heartbeats among the events. -/
def progressOnly (events : List Event) : List Event :=
  events.filter fun
    | .ProgressOnly _ => true
    | _ => false

/-! ## Notions used to state the properties of `buildPath` -/

/-- Lines 157-166 of `config.go`: the path `buildPath` returns for the name `execpath`. -/
def resolvePath (env : Env) (base execpath : String) : String :=
  match env.LookPath execpath with
  | .ok path => FromSlash env.GOOS path
  | .error _ =>
    if env.IsAbs (FromSlash env.GOOS execpath) then FromSlash env.GOOS execpath
    else base ++ String.singleton (Separator env.GOOS) ++ FromSlash env.GOOS execpath

/-- The name ends with one of the extensions recognized on Windows. -/
def hasWinExt (execpath : String) : Bool := winExt.any fun ext => hasSuffix execpath ext

/-! ## Sample data -/

/-- A webservice that is down and resolves the script `id` to `http://localhost:8181/ws/scripts/id`. -/
def sampleApi : PipelineApi :=
  { ScriptUrl := fun id => "http://localhost:8181/ws/scripts/" ++ id,
    Alive := .error "connection refused",
    JobRequest := fun _ _ => .error "connection refused",
    Job := [] }

/-- The default configuration of `config.go` (lines 40-50). -/
def config : Config := fun key =>
  if key = HOST then .str "http://localhost"
  else if key = PORT then .int 8181
  else if key = PATH then .str "ws"
  else if key = APPPATH then .str "DAISY Pipeline"
  else if key = CLIENTKEY then .str ""
  else if key = CLIENTSECRET then .str ""
  else if key = DEBUG then .bool false
  else if key = STARTING then .bool false
  else .nil

/-- A fresh link over `sampleApi` with the default configuration (`NewLink`, lines 59-68). -/
def sampleLink : PipelineLink :=
  { pipeline := sampleApi, config := config, Version := "", Authentication := false,
    FsAllow := false }

/-- A Linux machine on which the client is installed in `/opt/dp2`, called as `dp2 scripts`,
where no program is found on the search path and neither the host binary nor an engine
can be started. -/
def sampleEnv : Env :=
  { Args := ["scripts"],
    GOOS := "linux",
    ExecutableFolder := .ok "/opt/dp2",
    LookPath := fun _ => .error "executable file not found in $PATH",
    IsAbs := fun path => path.toList.head? == some '/',
    Run := fun _ _ => .failed "no such file or directory",
    Launch := fun _ => .error "timeout" }

/-- The link `sampleLink` allowed to start an engine (`starting: true`). -/
def startingLink : PipelineLink :=
  { sampleLink with config := fun key => if key = STARTING then .bool true else config key }

/-- A link to a webservice that is up and requires authentication, configured with the given
client key and client secret. -/
def authLink (key secret : String) : PipelineLink :=
  { pipeline := { sampleApi with
                  Alive := .ok { Version := "1.14.3", FsAllow := true, Authentication := true } },
    config := fun name =>
      if name = CLIENTKEY then .str key
      else if name = CLIENTSECRET then .str secret
      else config name,
    Version := "", Authentication := false, FsAllow := false }

/-- A request for script `s` with the given options and stylesheet parameters, no input. -/
def sampleRequest (options : List (String × List String))
    (params : List (String × pipeline.StylesheetParameter)) : JobRequest :=
  { Script := "s", Nicename := "", Priority := "", Options := options, Inputs := [],
    StylesheetParameters := params, Data := [], Background := false }

/-- A job in the state RUNNING whose messages are the given forest. -/
def runningJob (messages : List pipeline.Message) : pipeline.Job :=
  { Id := "job-1", Status := "RUNNING", Messages := { Progress := 0, Message := messages } }

/-- A link to a webservice that accepts every job request as the job `job-1` and answers
the polls for its messages with `polls`. -/
def submittingLink (polls : List (Except String pipeline.Job)) : PipelineLink :=
  { sampleLink with
    pipeline := { sampleApi with
                  JobRequest := fun _ _ => .ok (runningJob []),
                  Job := polls } }

/-- A Windows machine on which the client is installed in `C:\dp2`, where no program is
found on the search path and a path is absolute when its second byte is a colon. -/
def windowsEnv : Env :=
  { sampleEnv with
    GOOS := "windows",
    ExecutableFolder := .ok "C:\\dp2",
    IsAbs := fun path => (path.toList.drop 1).head? == some ':' }

/-- The default configuration with the given value under `app_path`. -/
def configWithAppPath (path : String) : Config :=
  fun key => if key = APPPATH then .str path else config key

/-- A machine like `sampleEnv` on which the host binary runs and ends with the given exit code. -/
def hostExits (code : Int) : Env :=
  { sampleEnv with Run := fun _ _ => .exited code }

/-- A background request for the script `no-such-script`, without option. -/
def backgroundRequest : JobRequest :=
  { Script := "no-such-script", Nicename := "", Priority := "", Options := [], Inputs := [],
    StylesheetParameters := [], Data := [], Background := true }

/-- Two polls of a running job whose tree holds the sequence numbers 0 and 1: the second
poll brings nothing new. -/
def quietPolls : List (Except String pipeline.Job) :=
  [.ok (runningJob [⟨0, "a", "INFO", [⟨1, "b", "INFO", []⟩]⟩]),
   .ok (runningJob [⟨0, "a", "INFO", [⟨1, "b", "INFO", []⟩]⟩])]

/-- Two polls of a running job whose tree grows from the sequence numbers 0, 1 to 0, 1, 2. -/
def growingPolls : List (Except String pipeline.Job) :=
  [.ok (runningJob [⟨0, "a", "INFO", [⟨1, "b", "INFO", []⟩]⟩]),
   .ok (runningJob [⟨0, "a", "INFO", [⟨1, "b", "INFO", []⟩]⟩, ⟨2, "c", "INFO", []⟩])]

/-- Two polls of a running job whose only message has the largest `int` as sequence number. -/
def overflowPolls : List (Except String pipeline.Job) :=
  [.ok (runningJob [⟨9223372036854775807, "a", "INFO", []⟩]),
   .ok (runningJob [⟨9223372036854775807, "a", "INFO", []⟩])]

/-- A machine like `sampleEnv` on which the client is called as `dp2 --port 8181 scripts`. -/
def pinnedEnv : Env :=
  { sampleEnv with Args := ["--port", "8181", "scripts"] }

/-- The link `sampleLink` whose configuration holds the string `true` under `starting`, as a
configuration file with the line `starting: "true"` gives. -/
def quotedStartingLink : PipelineLink :=
  { sampleLink with config := fun key => if key = STARTING then .str "true" else config key }

/-- A link to a webservice that is up and requires authentication, whose configuration holds
the integer 12345 under `client_key`, as a configuration file with the line
`client_key: 12345` gives, and the string `supersecret` under `client_secret`. -/
def numericKeyLink : PipelineLink :=
  { authLink "" "supersecret" with
    config := fun name =>
      if name = CLIENTKEY then .int 12345
      else if name = CLIENTSECRET then .str "supersecret"
      else config name }

/-! ## Facts about `flattenMessages` -/

theorem flattenMessage_eq (status : String) (progress : Rat) (firstSeq : Int)
    (seq : Int) (content level : String) (children : List pipeline.Message)
    (depth : Nat) (lastSeq : Int) :
    flattenMessage status progress firstSeq ⟨seq, content, level, children⟩ depth lastSeq =
      (if children.length > 0 then
        ((flattenOwn status progress firstSeq seq content level depth lastSeq).1 ++
            (flattenLoop status progress firstSeq children (depth + 1) (-1)).1,
          if (flattenLoop status progress firstSeq children (depth + 1) (-1)).2 >
              (flattenOwn status progress firstSeq seq content level depth lastSeq).2
          then (flattenLoop status progress firstSeq children (depth + 1) (-1)).2
          else (flattenOwn status progress firstSeq seq content level depth lastSeq).2)
      else flattenOwn status progress firstSeq seq content level depth lastSeq) := by
  rw [flattenMessage]

theorem flattenLoop_nil (status : String) (progress : Rat) (firstSeq : Int)
    (depth : Nat) (lastSeq : Int) :
    flattenLoop status progress firstSeq [] depth lastSeq = ([], lastSeq) := by
  rw [flattenLoop]

theorem flattenLoop_cons (status : String) (progress : Rat) (firstSeq : Int)
    (msg : pipeline.Message) (rest : List pipeline.Message) (depth : Nat) (lastSeq : Int) :
    flattenLoop status progress firstSeq (msg :: rest) depth lastSeq =
      ((flattenMessage status progress firstSeq msg depth lastSeq).1 ++
        (flattenLoop status progress firstSeq rest depth
          (flattenMessage status progress firstSeq msg depth lastSeq).2).1,
        (flattenLoop status progress firstSeq rest depth
          (flattenMessage status progress firstSeq msg depth lastSeq).2).2) := by
  rw [flattenLoop]

theorem preorderOf_eq (seq : Int) (content level : String) (children : List pipeline.Message) :
    preorderOf ⟨seq, content, level, children⟩ = seq :: preorder children := by
  rw [preorderOf]

theorem preorder_nil : preorder [] = [] := by
  rw [preorder]

theorem preorder_cons (msg : pipeline.Message) (rest : List pipeline.Message) :
    preorder (msg :: rest) = preorderOf msg ++ preorder rest := by
  rw [preorder]

theorem flattenOwn_events (status : String) (progress : Rat) (firstSeq : Int)
    (seq : Int) (content level : String) (depth : Nat) (lastSeq : Int) :
    (flattenOwn status progress firstSeq seq content level depth lastSeq).1 =
      if seq ≥ firstSeq then [Event.LogLine seq content level depth status progress] else [] := by
  unfold flattenOwn
  split <;> rfl

theorem flattenOwn_last (status : String) (progress : Rat) (firstSeq : Int)
    (seq : Int) (content level : String) (depth : Nat) (lastSeq : Int) :
    (flattenOwn status progress firstSeq seq content level depth lastSeq).2 =
      if seq ≥ firstSeq then (if seq > lastSeq then seq else lastSeq) else lastSeq := by
  unfold flattenOwn
  split <;> rfl

/-- What the recursion of `flattenMessages` proves for a node and for a forest at once. -/
theorem flatten_induction (status : String) (progress : Rat) (firstSeq : Int)
    (P : pipeline.Message → Nat → Int → List Event × Int → Prop)
    (Q : List pipeline.Message → Nat → Int → List Event × Int → Prop)
    (hnode : ∀ seq content level children depth lastSeq,
      Q children (depth + 1) (-1) (flattenLoop status progress firstSeq children (depth + 1) (-1)) →
      P ⟨seq, content, level, children⟩ depth lastSeq
        (flattenMessage status progress firstSeq ⟨seq, content, level, children⟩ depth lastSeq))
    (hnil : ∀ depth lastSeq, Q [] depth lastSeq ([], lastSeq))
    (hcons : ∀ msg rest depth lastSeq,
      P msg depth lastSeq (flattenMessage status progress firstSeq msg depth lastSeq) →
      Q rest depth (flattenMessage status progress firstSeq msg depth lastSeq).2
        (flattenLoop status progress firstSeq rest depth
          (flattenMessage status progress firstSeq msg depth lastSeq).2) →
      Q (msg :: rest) depth lastSeq
        (flattenLoop status progress firstSeq (msg :: rest) depth lastSeq))
    (frm : List pipeline.Message) (depth : Nat) (lastSeq : Int) :
    Q frm depth lastSeq (flattenLoop status progress firstSeq frm depth lastSeq) := by
  refine flattenLoop.induct status progress firstSeq
    (fun msg depth lastSeq =>
      P msg depth lastSeq (flattenMessage status progress firstSeq msg depth lastSeq))
    (fun frm depth lastSeq =>
      Q frm depth lastSeq (flattenLoop status progress firstSeq frm depth lastSeq))
    ?_ ?_ ?_ ?_ frm depth lastSeq
  · intro seq content level children depth lastSeq _ ih
    exact hnode seq content level children depth lastSeq ih
  · intro seq content level children depth lastSeq hlen
    have hnil2 : children = [] := by
      cases children with
      | nil => rfl
      | cons a l => simp at hlen
    subst hnil2
    apply hnode
    rw [flattenLoop_nil]
    exact hnil _ _
  · intro depth lastSeq
    rw [flattenLoop_nil]
    exact hnil depth lastSeq
  · intro msg rest depth lastSeq b ih1 ih2
    exact hcons msg rest depth lastSeq ih1 ih2

/-- The events of a node: its own log line, if any, then those of its children. -/
theorem flattenMessage_events (status : String) (progress : Rat) (firstSeq : Int)
    (seq : Int) (content level : String) (children : List pipeline.Message)
    (depth : Nat) (lastSeq : Int) :
    (flattenMessage status progress firstSeq ⟨seq, content, level, children⟩ depth lastSeq).1 =
      (if seq ≥ firstSeq then [Event.LogLine seq content level depth status progress] else []) ++
        (flattenLoop status progress firstSeq children (depth + 1) (-1)).1 := by
  rw [flattenMessage_eq, ← flattenOwn_events status progress firstSeq seq content level depth lastSeq]
  split
  · rfl
  · rename_i h
    have hnil : children = [] := by
      cases children with
      | nil => rfl
      | cons a l => simp at h
    subst hnil
    rw [flattenLoop_nil]
    simp

/-- The running maximum after a node. -/
theorem flattenMessage_last (status : String) (progress : Rat) (firstSeq : Int)
    (seq : Int) (content level : String) (children : List pipeline.Message)
    (depth : Nat) (lastSeq : Int) :
    (flattenMessage status progress firstSeq ⟨seq, content, level, children⟩ depth lastSeq).2 =
      if children.length > 0 ∧
          (flattenLoop status progress firstSeq children (depth + 1) (-1)).2 >
            (flattenOwn status progress firstSeq seq content level depth lastSeq).2
      then (flattenLoop status progress firstSeq children (depth + 1) (-1)).2
      else (flattenOwn status progress firstSeq seq content level depth lastSeq).2 := by
  rw [flattenMessage_eq]
  by_cases h : children.length > 0
  · by_cases h2 : (flattenLoop status progress firstSeq children (depth + 1) (-1)).2 >
        (flattenOwn status progress firstSeq seq content level depth lastSeq).2
    · simp only [h, h2, and_self, if_true]
    · simp only [h, h2, and_false, if_true, if_false]
  · simp only [h, false_and, if_false]

/-- Every event `flattenMessages` sends is a log line. -/
theorem flattenLoop_not_final (status : String) (progress : Rat) (firstSeq : Int)
    (frm : List pipeline.Message) (depth : Nat) (lastSeq : Int) :
    ∀ e ∈ (flattenLoop status progress firstSeq frm depth lastSeq).1, e.isFinal = false := by
  refine flatten_induction status progress firstSeq
    (fun _ _ _ r => ∀ e ∈ r.1, e.isFinal = false)
    (fun _ _ _ r => ∀ e ∈ r.1, e.isFinal = false) ?_ ?_ ?_ frm depth lastSeq
  · intro seq content level children depth lastSeq ih e he
    rw [flattenMessage_events] at he
    simp only [List.mem_append] at he
    rcases he with he | he
    · split at he
      · simp only [List.mem_singleton] at he
        subst he
        rfl
      · simp at he
    · exact ih e he
  · intro depth lastSeq e he
    simp at he
  · intro msg rest depth lastSeq ih1 ih2 e he
    rw [flattenLoop_cons] at he
    simp only [List.mem_append] at he
    rcases he with he | he
    · exact ih1 e he
    · exact ih2 e he

/-- The sequence numbers `flattenMessages` delivers are those of the forest, depth first,
that reach `firstSeq`. -/
theorem flattenLoop_logSeqs (status : String) (progress : Rat) (firstSeq : Int)
    (frm : List pipeline.Message) (depth : Nat) (lastSeq : Int) :
    logSeqs (flattenLoop status progress firstSeq frm depth lastSeq).1 =
      (preorder frm).filter (fun s => decide (s ≥ firstSeq)) := by
  refine flatten_induction status progress firstSeq
    (fun msg _ _ r => logSeqs r.1 = (preorderOf msg).filter (fun s => decide (s ≥ firstSeq)))
    (fun frm _ _ r => logSeqs r.1 = (preorder frm).filter (fun s => decide (s ≥ firstSeq)))
    ?_ ?_ ?_ frm depth lastSeq
  · intro seq content level children depth lastSeq ih
    simp only at ih ⊢
    rw [flattenMessage_events, preorderOf_eq, logSeqs, List.filterMap_append, List.filter_cons]
    rw [logSeqs] at ih
    rw [ih]
    by_cases h : seq ≥ firstSeq
    · simp [h, Event.seq?]
    · simp [h]
  · intro depth lastSeq
    simp [logSeqs, preorder_nil]
  · intro msg rest depth lastSeq ih1 ih2
    simp only at ih1 ih2 ⊢
    rw [flattenLoop_cons, preorder_cons, List.filter_append, ← ih1, ← ih2]
    simp [logSeqs, List.filterMap_append]

/-- The value `flattenMessages` returns is at least the running maximum it started from,
bounds every sequence number delivered, and is one of them unless it is the start value
or the `-1` a recursive call starts from. -/
theorem flattenLoop_last (status : String) (progress : Rat) (firstSeq : Int)
    (frm : List pipeline.Message) (depth : Nat) (lastSeq : Int) :
    lastSeq ≤ (flattenLoop status progress firstSeq frm depth lastSeq).2 ∧
    (∀ s ∈ logSeqs (flattenLoop status progress firstSeq frm depth lastSeq).1,
      s ≤ (flattenLoop status progress firstSeq frm depth lastSeq).2) ∧
    ((flattenLoop status progress firstSeq frm depth lastSeq).2 = lastSeq ∨
      (flattenLoop status progress firstSeq frm depth lastSeq).2 = -1 ∨
      (flattenLoop status progress firstSeq frm depth lastSeq).2 ∈
        logSeqs (flattenLoop status progress firstSeq frm depth lastSeq).1) := by
  refine flatten_induction status progress firstSeq
    (fun _ _ lastSeq r => lastSeq ≤ r.2 ∧ (∀ s ∈ logSeqs r.1, s ≤ r.2) ∧
      (r.2 = lastSeq ∨ r.2 = -1 ∨ r.2 ∈ logSeqs r.1))
    (fun _ _ lastSeq r => lastSeq ≤ r.2 ∧ (∀ s ∈ logSeqs r.1, s ≤ r.2) ∧
      (r.2 = lastSeq ∨ r.2 = -1 ∨ r.2 ∈ logSeqs r.1))
    ?_ ?_ ?_ frm depth lastSeq
  · intro seq content level children depth lastSeq ih
    rw [flattenMessage_last, flattenMessage_events, flattenOwn_last]
    by_cases hc : children.length > 0
    · generalize flattenLoop status progress firstSeq children (depth + 1) (-1) = sub at ih ⊢
      obtain ⟨ih1, ih2, ih3⟩ := ih
      simp only [hc, true_and, logSeqs, List.filterMap_append, List.mem_append] at ih2 ih3 ⊢
      by_cases h : seq ≥ firstSeq
      · simp only [if_pos h, List.filterMap_cons, Event.seq?, List.filterMap_nil,
          List.mem_singleton]
        split_ifs <;> refine ⟨by omega, ?_, ?_⟩
        all_goals first
          | (intro s hs
             rcases hs with hs | hs
             · omega
             · have := ih2 s hs
               omega)
          | (rcases ih3 with h3 | h3 | h3
             · omega
             · exact Or.inr (Or.inl h3)
             · exact Or.inr (Or.inr (Or.inr h3)))
          | exact Or.inr (Or.inr (Or.inl rfl))
          | exact Or.inl rfl
      · simp only [if_neg h, List.filterMap_nil, List.not_mem_nil, false_or]
        split_ifs <;> refine ⟨by omega, ?_, ?_⟩
        all_goals first
          | (intro s hs
             have := ih2 s hs
             omega)
          | (rcases ih3 with h3 | h3 | h3
             · omega
             · exact Or.inr (Or.inl h3)
             · exact Or.inr (Or.inr h3))
          | exact Or.inl rfl
    · have hnil : children = [] := by
        cases children with
        | nil => rfl
        | cons a l => simp at hc
      subst hnil
      simp only [flattenLoop_nil, List.length_nil, gt_iff_lt, lt_self_iff_false, false_and,
        if_false, List.append_nil, logSeqs]
      by_cases h : seq ≥ firstSeq <;> by_cases h2 : seq > lastSeq <;>
        simp [h, h2, Event.seq?] <;> omega
  · intro depth lastSeq
    simp [logSeqs]
  · intro msg rest depth lastSeq ih1 ih2
    obtain ⟨a1, a2, a3⟩ := ih1
    obtain ⟨b1, b2, b3⟩ := ih2
    simp only at a1 a2 a3 b1 b2 b3 ⊢
    rw [flattenLoop_cons]
    simp only [logSeqs, List.filterMap_append, List.mem_append] at a2 a3 b2 b3 ⊢
    refine ⟨by omega, ?_, ?_⟩
    · intro s hs
      rcases hs with hs | hs
      · have := a2 s hs
        omega
      · exact b2 s hs
    · rcases b3 with h3 | h3 | h3
      · rcases a3 with h4 | h4 | h4
        · left
          omega
        · right
          left
          omega
        · right
          right
          left
          rw [h3]
          exact h4
      · exact Or.inr (Or.inl h3)
      · exact Or.inr (Or.inr (Or.inr h3))

/-! ## Facts about `getAsyncMessages` -/

theorem getAsyncMessagesLoop_nil (msgSeq : Int) :
    getAsyncMessagesLoop [] msgSeq =
      { events := [], cursors := [], closed := false, msgSeq := msgSeq } := by
  rw [getAsyncMessagesLoop]

theorem getAsyncMessagesLoop_error (err : String) (rest : List (Except String pipeline.Job))
    (msgSeq : Int) :
    getAsyncMessagesLoop (.error err :: rest) msgSeq =
      { events := [Event.StreamError err], cursors := [msgSeq], closed := true,
        msgSeq := msgSeq } := by
  rw [getAsyncMessagesLoop]

theorem getAsyncMessagesLoop_terminal (job : pipeline.Job)
    (rest : List (Except String pipeline.Job)) (msgSeq : Int)
    (h : isTerminalStatus job.Status = true) :
    getAsyncMessagesLoop (.ok job :: rest) msgSeq =
      { events := (pollRound msgSeq job).1 ++ [Event.Terminal job.Status], cursors := [msgSeq],
        closed := true, msgSeq := (pollRound msgSeq job).2 } := by
  rw [getAsyncMessagesLoop]
  simp only [h, if_true]

theorem getAsyncMessagesLoop_running (job : pipeline.Job)
    (rest : List (Except String pipeline.Job)) (msgSeq : Int)
    (h : isTerminalStatus job.Status = false) :
    getAsyncMessagesLoop (.ok job :: rest) msgSeq =
      { events := (pollRound msgSeq job).1 ++
          (getAsyncMessagesLoop rest (pollRound msgSeq job).2).events,
        cursors := msgSeq :: (getAsyncMessagesLoop rest (pollRound msgSeq job).2).cursors,
        closed := (getAsyncMessagesLoop rest (pollRound msgSeq job).2).closed,
        msgSeq := (getAsyncMessagesLoop rest (pollRound msgSeq job).2).msgSeq } := by
  rw [getAsyncMessagesLoop]
  simp only [h, Bool.false_eq_true, if_false]

/-- The events of one round: the log lines, then a heartbeat unless the cursor advanced. -/
theorem pollRound_events (msgSeq : Int) (job : pipeline.Job) :
    (pollRound msgSeq job).1 =
      (flattenLoop job.Status job.Messages.Progress (wrapInt (msgSeq + 1))
        job.Messages.Message 0 (-1)).1 ++
      (if (pollRound msgSeq job).2 > msgSeq then []
        else [Event.ProgressOnly job.Messages.Progress]) := by
  unfold pollRound flattenMessages
  by_cases hlen : job.Messages.Message.length > 0
  · simp only [hlen, if_true]
    split_ifs <;> simp_all
  · have hnil : job.Messages.Message = [] := by
      cases h : job.Messages.Message with
      | nil => rfl
      | cons a l => simp [h] at hlen
    simp [hnil, flattenLoop_nil]

/-- No event of a round ends the stream. -/
theorem pollRound_not_final (msgSeq : Int) (job : pipeline.Job) :
    ∀ e ∈ (pollRound msgSeq job).1, e.isFinal = false := by
  intro e he
  rw [pollRound_events, List.mem_append] at he
  rcases he with he | he
  · exact flattenLoop_not_final _ _ _ _ _ _ e he
  · split at he
    · simp at he
    · simp only [List.mem_singleton] at he
      subst he
      rfl

/-- The events of a run are events that do not end the stream, followed, exactly when the
channel has been closed, by a single one that does. -/
theorem getAsyncMessagesLoop_shape (polls : List (Except String pipeline.Job)) (msgSeq : Int) :
    ∃ body fin, (getAsyncMessagesLoop polls msgSeq).events = body ++ fin ∧
      (∀ e ∈ body, e.isFinal = false) ∧
      (((getAsyncMessagesLoop polls msgSeq).closed = false ∧ fin = []) ∨
        ((getAsyncMessagesLoop polls msgSeq).closed = true ∧
          ∃ e, fin = [e] ∧ e.isFinal = true)) := by
  induction polls generalizing msgSeq with
  | nil =>
    refine ⟨[], [], ?_, ?_, Or.inl ⟨?_, rfl⟩⟩
    · rw [getAsyncMessagesLoop_nil]
      rfl
    · intro e he
      simp at he
    · rw [getAsyncMessagesLoop_nil]
  | cons r rest ih =>
    cases r with
    | error err =>
      rw [getAsyncMessagesLoop_error]
      exact ⟨[], [Event.StreamError err], rfl, by simp, Or.inr ⟨rfl, _, rfl, rfl⟩⟩
    | ok job =>
      by_cases h : isTerminalStatus job.Status = true
      · rw [getAsyncMessagesLoop_terminal job rest msgSeq h]
        exact ⟨(pollRound msgSeq job).1, [Event.Terminal job.Status], rfl,
          pollRound_not_final msgSeq job, Or.inr ⟨rfl, _, rfl, rfl⟩⟩
      · have h2 : isTerminalStatus job.Status = false := by simpa using h
        rw [getAsyncMessagesLoop_running job rest msgSeq h2]
        obtain ⟨body, fin, hev, hbody, hfin⟩ := ih (pollRound msgSeq job).2
        refine ⟨(pollRound msgSeq job).1 ++ body, fin, ?_, ?_, hfin⟩
        · simp only [hev, List.append_assoc]
        · intro e he
          rw [List.mem_append] at he
          rcases he with he | he
          · exact pollRound_not_final msgSeq job e he
          · exact hbody e he

/-- The channel is closed exactly when one of the polls failed or found the job finished. -/
theorem getAsyncMessagesLoop_closed (polls : List (Except String pipeline.Job)) (msgSeq : Int) :
    (getAsyncMessagesLoop polls msgSeq).closed = true ↔ ∃ r ∈ polls, endsStream r = true := by
  induction polls generalizing msgSeq with
  | nil => simp [getAsyncMessagesLoop_nil]
  | cons r rest ih =>
    cases r with
    | error err => simp [getAsyncMessagesLoop_error, endsStream]
    | ok job =>
      by_cases h : isTerminalStatus job.Status = true
      · simp [getAsyncMessagesLoop_terminal job rest msgSeq h, endsStream, h]
      · have h2 : isTerminalStatus job.Status = false := by simpa using h
        rw [getAsyncMessagesLoop_running job rest msgSeq h2]
        simp [ih, endsStream, h2]

/-- Inside the range of `int`, the wrap-around changes nothing. -/
theorem wrapInt_of_range (x : Int) (hlo : minInt ≤ x) (hhi : x ≤ maxInt) : wrapInt x = x := by
  unfold wrapInt
  unfold minInt at hlo
  unfold maxInt at hhi
  omega

/-- The sequence numbers delivered in a round. -/
theorem pollRound_logSeqs (msgSeq : Int) (job : pipeline.Job) :
    logSeqs (pollRound msgSeq job).1 =
      (preorder job.Messages.Message).filter (fun s => decide (s ≥ wrapInt (msgSeq + 1))) := by
  rw [pollRound_events, logSeqs, List.filterMap_append, ← logSeqs, flattenLoop_logSeqs]
  split <;> simp [Event.seq?]

/-- The cursor never decreases in a round and bounds the sequence numbers delivered in it. -/
theorem pollRound_cursor (msgSeq : Int) (job : pipeline.Job) :
    msgSeq ≤ (pollRound msgSeq job).2 ∧
    ∀ s ∈ logSeqs (pollRound msgSeq job).1, s ≤ (pollRound msgSeq job).2 := by
  have hev := pollRound_events msgSeq job
  have hlast := flattenLoop_last job.Status job.Messages.Progress (wrapInt (msgSeq + 1))
    job.Messages.Message 0 (-1)
  have h2 : (pollRound msgSeq job).2 =
      if (if job.Messages.Message.length > 0 then
            (flattenLoop job.Status job.Messages.Progress (wrapInt (msgSeq + 1))
              job.Messages.Message 0 (-1)).2
          else msgSeq) > msgSeq
      then (flattenLoop job.Status job.Messages.Progress (wrapInt (msgSeq + 1))
              job.Messages.Message 0 (-1)).2
      else msgSeq := by
    unfold pollRound flattenMessages
    by_cases hlen : job.Messages.Message.length > 0
    · simp only [hlen, if_true]
      split_ifs <;> rfl
    · simp only [hlen, if_false]
      split_ifs
      · omega
      · rfl
  constructor
  · rw [h2]
    split_ifs <;> omega
  · intro s hs
    have hs2 : s ∈ logSeqs (flattenLoop job.Status job.Messages.Progress (wrapInt (msgSeq + 1))
        job.Messages.Message 0 (-1)).1 := by
      rw [hev, logSeqs, List.filterMap_append, List.mem_append] at hs
      rcases hs with hs | hs
      · exact hs
      · split at hs <;> simp [Event.seq?] at hs
    have hle := hlast.2.1 s hs2
    have hne : job.Messages.Message.length > 0 := by
      cases h : job.Messages.Message with
      | nil =>
        rw [h, flattenLoop_nil] at hs2
        simp [logSeqs] at hs2
      | cons a l => simp
    rw [h2]
    simp only [hne, if_true]
    split_ifs <;> omega

/-- The new cursor is the old one or a sequence number delivered in the round. -/
theorem pollRound_cursor_mem (msgSeq : Int) (job : pipeline.Job) (h0 : -1 ≤ msgSeq) :
    (pollRound msgSeq job).2 = msgSeq ∨
      (pollRound msgSeq job).2 ∈ logSeqs (pollRound msgSeq job).1 := by
  have hlast := flattenLoop_last job.Status job.Messages.Progress (wrapInt (msgSeq + 1))
    job.Messages.Message 0 (-1)
  have hev := pollRound_events msgSeq job
  by_cases hgt : (pollRound msgSeq job).2 > msgSeq
  · right
    have h2 : (pollRound msgSeq job).2 =
        (flattenLoop job.Status job.Messages.Progress (wrapInt (msgSeq + 1))
          job.Messages.Message 0 (-1)).2 := by
      revert hgt
      unfold pollRound flattenMessages
      by_cases hlen : job.Messages.Message.length > 0
      · simp only [hlen, if_true]
        split_ifs
        · intro _
          rfl
        · intro h
          simp at h
      · simp only [hlen, if_false]
        split_ifs
        · omega
        · intro h
          simp at h
    rw [hev, logSeqs, List.filterMap_append, List.mem_append, ← logSeqs]
    left
    rw [h2] at hgt ⊢
    rcases hlast.2.2 with h3 | h3 | h3
    · omega
    · omega
    · exact h3
  · left
    have := (pollRound_cursor msgSeq job).1
    omega

/-- Along a run started from a cursor inside the range, when no sequence number of a polled
tree is the largest `int`: every sequence number delivered is above the start cursor, and
the delivered sequence numbers are pairwise related by any relation that contains `<` and
relates the sequence numbers of each polled tree in depth-first order. -/
theorem getAsyncMessagesLoop_pairwise (R : Int → Int → Prop) (hR : ∀ a b, a < b → R a b)
    (polls : List (Except String pipeline.Job)) (msgSeq : Int)
    (h0 : -1 ≤ msgSeq) (h1 : msgSeq < maxInt)
    (hrange : ∀ job ∈ okJobs polls, ∀ s ∈ preorder job.Messages.Message, s < maxInt)
    (htree : ∀ job ∈ okJobs polls, (preorder job.Messages.Message).Pairwise R) :
    (∀ s ∈ logSeqs (getAsyncMessagesLoop polls msgSeq).events, msgSeq < s) ∧
    (logSeqs (getAsyncMessagesLoop polls msgSeq).events).Pairwise R := by
  induction polls generalizing msgSeq with
  | nil => simp [getAsyncMessagesLoop_nil, logSeqs]
  | cons r rest ih =>
    cases r with
    | error err => simp [getAsyncMessagesLoop_error, logSeqs, Event.seq?]
    | ok job =>
      have hjob : job ∈ okJobs (Except.ok job :: rest) := by simp [okJobs]
      have hrest : ∀ j ∈ okJobs rest, j ∈ okJobs (Except.ok job :: rest) := by
        intro j hj
        simp [okJobs, hj]
      have hwrap : wrapInt (msgSeq + 1) = msgSeq + 1 := by
        apply wrapInt_of_range
        · unfold minInt
          omega
        · omega
      have hseqs := pollRound_logSeqs msgSeq job
      rw [hwrap] at hseqs
      have hround_gt : ∀ s ∈ logSeqs (pollRound msgSeq job).1, msgSeq < s := by
        intro s hs
        rw [hseqs, List.mem_filter] at hs
        have := hs.2
        simp only [ge_iff_le, decide_eq_true_eq] at this
        omega
      have hround_pw : (logSeqs (pollRound msgSeq job).1).Pairwise R := by
        rw [hseqs]
        exact (htree job hjob).filter _
      have hcur := pollRound_cursor msgSeq job
      by_cases h : isTerminalStatus job.Status = true
      · rw [getAsyncMessagesLoop_terminal job rest msgSeq h]
        have hls : logSeqs ((pollRound msgSeq job).1 ++ [Event.Terminal job.Status]) =
            logSeqs (pollRound msgSeq job).1 := by
          simp [logSeqs, List.filterMap_append, Event.seq?]
        simp only [hls]
        exact ⟨hround_gt, hround_pw⟩
      · have h2 : isTerminalStatus job.Status = false := by simpa using h
        rw [getAsyncMessagesLoop_running job rest msgSeq h2]
        have hnext1 : (pollRound msgSeq job).2 < maxInt := by
          rcases pollRound_cursor_mem msgSeq job h0 with hm | hm
          · omega
          · rw [hseqs, List.mem_filter] at hm
            exact hrange job hjob _ hm.1
        obtain ⟨ih1, ih2⟩ := ih (pollRound msgSeq job).2 (by omega) hnext1
          (fun j hj => hrange j (hrest j hj)) (fun j hj => htree j (hrest j hj))
        have hls : logSeqs ((pollRound msgSeq job).1 ++
              (getAsyncMessagesLoop rest (pollRound msgSeq job).2).events) =
            logSeqs (pollRound msgSeq job).1 ++
              logSeqs (getAsyncMessagesLoop rest (pollRound msgSeq job).2).events := by
          simp [logSeqs, List.filterMap_append]
        simp only [hls]
        constructor
        · intro s hs
          rw [List.mem_append] at hs
          rcases hs with hs | hs
          · exact hround_gt s hs
          · have := ih1 s hs
            omega
        · rw [List.pairwise_append]
          refine ⟨hround_pw, ih2, ?_⟩
          intro a ha b hb
          apply hR
          have := hcur.2 a ha
          have := ih1 b hb
          omega

/-- C1. The stream `getAsyncMessages` emits holds at most one Terminal or StreamError
event; such an event is followed by no other event and the channel is closed after it;
and the channel is closed only after such an event, which happens exactly when a poll
failed or returned a job in a final state. -/
theorem C1_final_event_unique_and_last (polls : List (Except String pipeline.Job)) :
    ((getAsyncMessages polls).events.filter Event.isFinal).length ≤ 1 ∧
    (∀ pre e post, (getAsyncMessages polls).events = pre ++ e :: post → e.isFinal = true →
      post = [] ∧ (getAsyncMessages polls).closed = true) ∧
    ((getAsyncMessages polls).closed = true →
      ∃ e, (getAsyncMessages polls).events.getLast? = some e ∧ e.isFinal = true) ∧
    ((getAsyncMessages polls).closed = true ↔ ∃ r ∈ polls, endsStream r = true) := by
  unfold getAsyncMessages
  obtain ⟨body, fin, hev, hbody, hfin⟩ := getAsyncMessagesLoop_shape polls (-1)
  have hfilter : body.filter Event.isFinal = [] := by
    rw [List.filter_eq_nil_iff]
    intro e he
    simp [hbody e he]
  refine ⟨?_, ?_, ?_, getAsyncMessagesLoop_closed polls (-1)⟩
  · rw [hev, List.filter_append, hfilter]
    rcases hfin with ⟨_, hf⟩ | ⟨_, e, hf, he⟩
    · simp [hf]
    · simp [hf, he]
  · intro pre e post hsplit he
    rw [hev] at hsplit
    rcases hfin with ⟨_, hf⟩ | ⟨hc, f, hf, _⟩
    · subst hf
      have hmem : e ∈ body := by
        rw [List.append_nil] at hsplit
        rw [hsplit]
        simp
      rw [hbody e hmem] at he
      exact absurd he (by decide)
    · subst hf
      refine ⟨?_, hc⟩
      rcases List.append_eq_append_iff.mp hsplit with ⟨a, _, ha⟩ | ⟨c, hc2, hc3⟩
      · cases a with
        | nil =>
          simp only [List.nil_append, List.cons.injEq] at ha
          exact ha.2.symm
        | cons x xs =>
          have := congrArg List.length ha
          simp at this
      · cases c with
        | nil =>
          simp only [List.nil_append, List.cons.injEq] at hc3
          exact hc3.2
        | cons x xs =>
          simp only [List.cons_append, List.cons.injEq] at hc3
          have hmem : e ∈ body := by
            rw [hc2, hc3.1]
            simp
          rw [hbody e hmem] at he
          exact absurd he (by decide)
  · intro hc
    rcases hfin with ⟨hc2, _⟩ | ⟨_, f, hf, hfe⟩
    · rw [hc2] at hc
      exact absurd hc (by decide)
    · refine ⟨f, ?_, hfe⟩
      rw [hev, hf]
      simp

/-- C2, as stated, fails: one poll whose tree holds the sequence numbers 2, 1, 1 in this order
delivers them in this order, which is neither non-decreasing nor free of repetition; and a
tree holding the largest `int`, polled twice, is delivered twice, because the cutoff
`msgSeq+1` of the second round wraps around to the smallest `int`. -/
theorem C2_counterexample_tree_order :
    (logSeqs (getAsyncMessages
      [.ok { Id := "job", Status := "RUNNING",
             Messages := { Progress := 0,
                           Message := [⟨2, "a", "INFO", []⟩, ⟨1, "b", "INFO", []⟩,
                                       ⟨1, "c", "INFO", []⟩] } }]).events = [2, 1, 1] ∧
      ¬ ([2, 1, 1] : List Int).Pairwise (· ≤ ·) ∧ ¬ ([2, 1, 1] : List Int).Nodup) ∧
    (logSeqs (getAsyncMessages
      [.ok { Id := "job", Status := "RUNNING",
             Messages := { Progress := 0, Message := [⟨9223372036854775807, "a", "INFO", []⟩] } },
       .ok { Id := "job", Status := "RUNNING",
             Messages := { Progress := 0,
                           Message := [⟨9223372036854775807, "a", "INFO", []⟩] } }]).events =
        [9223372036854775807, 9223372036854775807] ∧
      ¬ ([9223372036854775807, 9223372036854775807] : List Int).Nodup) := by
  refine ⟨⟨by decide, by decide, by decide⟩, by decide, by decide⟩

/-- C2, amended. When no polled tree holds the largest `int` as a sequence number: if every
polled tree lists its sequence numbers in non-decreasing depth-first order, the sequence
numbers of the delivered log lines are non-decreasing across the whole stream; and if no
polled tree holds a sequence number twice, no sequence number is delivered twice. -/
theorem C2_delivered_sequence_numbers_ordered (polls : List (Except String pipeline.Job))
    (hrange : ∀ job ∈ okJobs polls, ∀ s ∈ preorder job.Messages.Message, s < maxInt) :
    ((∀ job ∈ okJobs polls, (preorder job.Messages.Message).Pairwise (· ≤ ·)) →
      (logSeqs (getAsyncMessages polls).events).Pairwise (· ≤ ·)) ∧
    ((∀ job ∈ okJobs polls, (preorder job.Messages.Message).Nodup) →
      (logSeqs (getAsyncMessages polls).events).Nodup) := by
  have hmax : (-1 : Int) < maxInt := by
    unfold maxInt
    omega
  constructor
  · intro htree
    exact (getAsyncMessagesLoop_pairwise (· ≤ ·) (fun a b h => le_of_lt h) polls (-1)
      (le_refl _) hmax hrange htree).2
  · intro htree
    exact (getAsyncMessagesLoop_pairwise (· ≠ ·) (fun a b h => ne_of_lt h) polls (-1)
      (le_refl _) hmax hrange htree).2

/-- C2, amended, at two polls: the first returns the tree 0 (1, 2), the second the same tree
grown by 3; the stream delivers 0, 1, 2, 3. -/
theorem C2_delivered_sequence_numbers_ordered_witness :
    logSeqs (getAsyncMessages
      [.ok { Id := "job", Status := "RUNNING",
             Messages := { Progress := 0,
                           Message := [⟨0, "a", "INFO",
                             [⟨1, "b", "INFO", []⟩, ⟨2, "c", "INFO", []⟩]⟩] } },
       .ok { Id := "job", Status := "SUCCESS",
             Messages := { Progress := 1,
                           Message := [⟨0, "a", "INFO",
                             [⟨1, "b", "INFO", []⟩, ⟨2, "c", "INFO", []⟩]⟩,
                             ⟨3, "d", "INFO", []⟩] } }]).events = [0, 1, 2, 3] ∧
    (logSeqs (getAsyncMessages
      [.ok { Id := "job", Status := "RUNNING",
             Messages := { Progress := 0,
                           Message := [⟨0, "a", "INFO",
                             [⟨1, "b", "INFO", []⟩, ⟨2, "c", "INFO", []⟩]⟩] } },
       .ok { Id := "job", Status := "SUCCESS",
             Messages := { Progress := 1,
                           Message := [⟨0, "a", "INFO",
                             [⟨1, "b", "INFO", []⟩, ⟨2, "c", "INFO", []⟩]⟩,
                             ⟨3, "d", "INFO", []⟩] } }]).events).Pairwise (· ≤ ·) ∧
    (logSeqs (getAsyncMessages
      [.ok { Id := "job", Status := "RUNNING",
             Messages := { Progress := 0,
                           Message := [⟨0, "a", "INFO",
                             [⟨1, "b", "INFO", []⟩, ⟨2, "c", "INFO", []⟩]⟩] } },
       .ok { Id := "job", Status := "SUCCESS",
             Messages := { Progress := 1,
                           Message := [⟨0, "a", "INFO",
                             [⟨1, "b", "INFO", []⟩, ⟨2, "c", "INFO", []⟩]⟩,
                             ⟨3, "d", "INFO", []⟩] } }]).events).Nodup := by
  have h := C2_delivered_sequence_numbers_ordered
    [.ok { Id := "job", Status := "RUNNING",
           Messages := { Progress := 0,
                         Message := [⟨0, "a", "INFO",
                           [⟨1, "b", "INFO", []⟩, ⟨2, "c", "INFO", []⟩]⟩] } },
     .ok { Id := "job", Status := "SUCCESS",
           Messages := { Progress := 1,
                         Message := [⟨0, "a", "INFO",
                           [⟨1, "b", "INFO", []⟩, ⟨2, "c", "INFO", []⟩]⟩,
                           ⟨3, "d", "INFO", []⟩] } }]
    (by decide)
  exact ⟨by decide, h.1 (by decide), h.2 (by decide)⟩

/-! ## Facts about `jobRequestToPipeline` -/

theorem foldl_append_singleton {α β : Type} (f : α → β) (values : List α) (start : List β) :
    values.foldl (fun items value => items ++ [f value]) start = start ++ values.map f := by
  induction values generalizing start with
  | nil => simp
  | cons v rest ih => simp [ih]

/-- The item list built by the `append` loop holds the values in order. -/
theorem appendItems_eq (values : List String) :
    appendItems values = values.map pipeline.Item.mk := by
  unfold appendItems
  rw [foldl_append_singleton (fun value => ({ Value := value } : pipeline.Item))]
  rfl

/-- An option with at least one value is built without panic. -/
theorem buildOption_of_ne_nil (name : String) (values : List String) (h : values ≠ []) :
    buildOption name values = .ret (wireOption name values) := by
  unfold buildOption wireOption
  by_cases hlen : values.length > 1
  · simp only [hlen, if_true, appendItems_eq]
  · simp only [hlen, if_false]
    cases values with
    | nil => exact absurd rfl h
    | cons v rest => rfl

/-- The loop over the options, when every option has at least one value. -/
theorem optionsLoop_eq (entries : List (String × List String))
    (start : pipeline.Option) (options : List pipeline.Option)
    (h : ∀ nv ∈ entries, nv.2 ≠ []) :
    optionsLoop entries start options =
      .ret (withheldOption entries start, options ++ ordinaryOptions entries) := by
  induction entries generalizing start options with
  | nil => simp [optionsLoop, withheldOption, ordinaryOptions]
  | cons nv rest ih =>
    obtain ⟨name, values⟩ := nv
    have hv : values ≠ [] := h (name, values) (by simp)
    have hrest : ∀ nv ∈ rest, nv.2 ≠ [] := fun nv hnv => h nv (by simp [hnv])
    rw [optionsLoop, buildOption_of_ne_nil name values hv]
    simp only [Outcome.bind]
    by_cases hname : name = "stylesheet-parameters"
    · rw [if_pos hname, ih _ _ hrest]
      simp [withheldOption, ordinaryOptions, hname, List.filter_cons]
    · rw [if_neg hname, ih _ _ hrest]
      simp [withheldOption, ordinaryOptions, hname, List.filter_cons]

/-- The loop over the stylesheet parameters appends one entry per parameter, in order. -/
theorem paramsLoop_eq (entries : List (String × pipeline.StylesheetParameter))
    (params : List String) :
    paramsLoop entries params = params ++ entries.map fun np => paramEntry np.1 np.2 := by
  induction entries generalizing params with
  | nil => simp [paramsLoop]
  | cons np rest ih =>
    obtain ⟨name, param⟩ := np
    rw [paramsLoop, ih]
    simp

/-- The wire request of a request whose options all have at least one value. -/
theorem jobRequestToPipeline_eq (req : JobRequest) (p : PipelineLink)
    (h : ∀ nv ∈ req.Options, nv.2 ≠ []) :
    jobRequestToPipeline req p =
      .ret ({ Script := { Href := p.pipeline.ScriptUrl req.Script },
              Nicename := req.Nicename, Priority := req.Priority,
              Inputs := inputsLoop req.Inputs [],
              Options := ordinaryOptions req.Options ++
                (if (mergeParams (withheldOption req.Options {})
                      (req.StylesheetParameters.map fun np => paramEntry np.1 np.2)).Name ≠ ""
                  then [mergeParams (withheldOption req.Options {})
                      (req.StylesheetParameters.map fun np => paramEntry np.1 np.2)]
                  else []) }, none) := by
  unfold jobRequestToPipeline jobRequestToPipelineAt
  rw [optionsLoop_eq req.Options {} [] h]
  simp only [Outcome.bind, paramsLoop_eq, List.nil_append]
  split_ifs <;> simp

/-- The withheld option of a map without the key "stylesheet-parameters". -/
theorem withheldOption_of_not_mem (entries : List (String × List String))
    (start : pipeline.Option) (h : ∀ nv ∈ entries, nv.1 ≠ "stylesheet-parameters") :
    withheldOption entries start = start := by
  unfold withheldOption
  induction entries generalizing start with
  | nil => rfl
  | cons x xs ih =>
    rw [List.foldl_cons, if_neg (h x (by simp))]
    exact ih start (fun nv hnv => h nv (by simp [hnv]))

/-- The withheld option of a map that has the key "stylesheet-parameters". -/
theorem withheldOption_of_mem (entries : List (String × List String)) (start : pipeline.Option)
    (values : List String) (hkeys : distinctKeys entries)
    (hmem : ("stylesheet-parameters", values) ∈ entries) :
    withheldOption entries start = wireOption "stylesheet-parameters" values := by
  induction entries generalizing start with
  | nil => simp at hmem
  | cons nv rest ih =>
    unfold distinctKeys at hkeys ih
    simp only [List.map_cons, List.nodup_cons, List.mem_map, not_exists, not_and] at hkeys
    simp only [List.mem_cons] at hmem
    unfold withheldOption at ih ⊢
    rw [List.foldl_cons]
    rcases hmem with hmem | hmem
    · subst hmem
      simp only [if_true]
      have hno : ∀ nv ∈ rest, nv.1 ≠ "stylesheet-parameters" := by
        intro nv hnv heq
        exact hkeys.1 nv hnv heq
      exact withheldOption_of_not_mem rest _ hno
    · exact ih _ hkeys.2 hmem

/-- The replacer of line 385 on a list of bytes: replacing the newlines and then the single
quotes gives the same text, because the replacement of a newline holds no single quote. -/
theorem replacerReplace_css (l : List Char) :
    replacerReplace [(Char.ofNat 10, "\\A "), (Char.ofNat 39, "\\27 ")] l =
      (l.flatMap fun c => if c = Char.ofNat 10 then "\\A ".toList else [c]).flatMap
        fun c => if c = Char.ofNat 39 then "\\27 ".toList else [c] := by
  induction l with
  | nil => rfl
  | cons c rest ih =>
    rw [replacerReplace, ih, List.flatMap_cons, List.flatMap_append]
    congr 1
    by_cases h1 : c = Char.ofNat 10
    · subst h1
      decide
    · by_cases h2 : c = Char.ofNat 39
      · subst h2
        decide
      · have hb1 : (c == Char.ofNat 10) = false := by simpa using h1
        have hb2 : (c == Char.ofNat 39) = false := by simpa using h2
        simp [List.lookup, hb1, hb2, h1, h2]

/-- The escaping of line 385 replaces every newline and every single quote. -/
theorem cssEscape_eq (value : String) :
    cssEscape value =
      replaceEvery (Char.ofNat 39) "\\27 " (replaceEvery (Char.ofNat 10) "\\A " value) := by
  unfold cssEscape replaceEvery
  rw [replacerReplace_css]
  rfl

/-- The entry the code builds for a parameter is the one the specification describes. -/
theorem paramEntry_eq_specEntry (name : String) (param : pipeline.StylesheetParameter) :
    paramEntry name param = specEntry name param := by
  unfold paramEntry specEntry
  rw [cssEscape_eq]
  cases h : param.Type_ <;> simp

/-- C3, as stated, fails: a request holding an option without value yields no wire request,
hence no wire option for its other option `x`, because reading `values[0]` panics. -/
theorem C3_counterexample_empty_value_list :
    jobRequestToPipeline (sampleRequest [("x", ["v"]), ("y", [])] []) sampleLink =
      .panic "runtime error: index out of range [0] with length 0" ∧
    ¬ ∃ result, jobRequestToPipeline (sampleRequest [("x", ["v"]), ("y", [])] []) sampleLink =
      .ret result := by
  have h : jobRequestToPipeline (sampleRequest [("x", ["v"]), ("y", [])] []) sampleLink =
      .panic "runtime error: index out of range [0] with length 0" := by decide
  refine ⟨h, ?_⟩
  rintro ⟨result, hr⟩
  rw [h] at hr
  exact Outcome.noConfusion hr

/-- C3, amended. For every job request in which every option has at least one value,
`jobRequestToPipeline` returns a wire request with a nil error, and for every option whose
name is not "stylesheet-parameters" the wire request holds an option of that name which,
if the option has exactly one value, carries that value as its scalar `Value` and has no
item, and, if it has two or more values, has the item list of these values in the caller's
order and no scalar value. -/
theorem C3_option_scalar_or_item_list (req : JobRequest) (p : PipelineLink)
    (hvalues : ∀ nv ∈ req.Options, nv.2 ≠ []) :
    ∃ pReq, jobRequestToPipeline req p = .ret (pReq, none) ∧
      ∀ name values, (name, values) ∈ req.Options → name ≠ "stylesheet-parameters" →
        ∃ option ∈ pReq.Options, option.Name = name ∧
          (∀ value, values = [value] → option.Value = value ∧ option.Items = []) ∧
          (2 ≤ values.length →
            option.Items = values.map pipeline.Item.mk ∧
            option.Items.length = values.length ∧ option.Value = "") := by
  refine ⟨_, jobRequestToPipeline_eq req p hvalues, ?_⟩
  intro name values hmem hname
  refine ⟨wireOption name values, ?_, ?_, ?_, ?_⟩
  · simp only [List.mem_append]
    left
    unfold ordinaryOptions
    rw [List.mem_map]
    exact ⟨(name, values), by simp [List.mem_filter, hmem, hname], rfl⟩
  · unfold wireOption
    split <;> rfl
  · intro value hv
    subst hv
    simp [wireOption]
  · intro hlen
    have h1 : values.length > 1 := by omega
    simp [wireOption, h1]

/-- C3, amended, at a request with a single-valued and a three-valued option. -/
theorem C3_option_scalar_or_item_list_witness :
    ∃ pReq, jobRequestToPipeline
        (sampleRequest [("x", ["v"]), ("y", ["1", "2", "3"])] []) sampleLink = .ret (pReq, none) ∧
      ∀ name values, (name, values) ∈ (sampleRequest [("x", ["v"]), ("y", ["1", "2", "3"])] []).Options →
        name ≠ "stylesheet-parameters" →
        ∃ option ∈ pReq.Options, option.Name = name ∧
          (∀ value, values = [value] → option.Value = value ∧ option.Items = []) ∧
          (2 ≤ values.length →
            option.Items = values.map pipeline.Item.mk ∧
            option.Items.length = values.length ∧ option.Value = "") :=
  C3_option_scalar_or_item_list (sampleRequest [("x", ["v"]), ("y", ["1", "2", "3"])] [])
    sampleLink (by decide)

/-- C4. The entry of a stylesheet parameter with name n and value v is `n: v` when its type
is boolean, integer or non-negative integer, and otherwise `n: 'e'` where e is v with every
newline replaced by `\A ` and every single quote by `\27 `; the synthesized literal is the
list of these entries, separated by `, `, between parentheses; boolean foo = true gives
`foo: true` and string foo = O'Brien, newline, Smith gives `foo: 'O\27 Brien\A Smith'`. -/
theorem C4_stylesheet_parameter_entry :
    (∀ name param, paramEntry name param = specEntry name param) ∧
    (∀ entries, paramsLiteral (paramsLoop entries []) = specLiteral entries) ∧
    (∀ name value, paramEntry name ⟨.XsBoolean, value⟩ = name ++ ": " ++ value) ∧
    (∀ name value, paramEntry name ⟨.XsInteger, value⟩ = name ++ ": " ++ value) ∧
    (∀ name value, paramEntry name ⟨.XsNonNegativeInteger, value⟩ = name ++ ": " ++ value) ∧
    (∀ name value tag, paramEntry name ⟨.other tag, value⟩ =
      name ++ ": '" ++
        replaceEvery (Char.ofNat 39) "\\27 " (replaceEvery (Char.ofNat 10) "\\A " value) ++ "'") ∧
    paramEntry "foo" ⟨.XsBoolean, "true"⟩ = "foo: true" ∧
    paramEntry "foo" ⟨.other "xs:string", "O'Brien\nSmith"⟩ = "foo: 'O\\27 Brien\\A Smith'" := by
  refine ⟨paramEntry_eq_specEntry, ?_, ?_, ?_, ?_, ?_, by decide, by decide⟩
  · intro entries
    rw [paramsLoop_eq]
    unfold paramsLiteral specLiteral
    simp only [List.nil_append, paramEntry_eq_specEntry]
  · intro name value
    rfl
  · intro name value
    rfl
  · intro name value
    rfl
  · intro name value tag
    rw [paramEntry_eq_specEntry]
    simp [specEntry]

/-- A list that is a rearrangement of two elements is one of the two orders. -/
theorem perm_pair_cases {α : Type} {l : List α} {x y : α} (h : l.Perm [x, y]) :
    l = [x, y] ∨ l = [y, x] := by
  obtain ⟨u, v, rfl⟩ := List.length_eq_two.mp h.length_eq
  have hu : u ∈ [x, y] := h.subset (by simp)
  simp only [List.mem_cons, List.mem_singleton, List.not_mem_nil, or_false] at hu
  rcases hu with hu | hu
  · subst hu
    have hv := List.perm_singleton.mp (List.Perm.cons_inv h)
    simp only [List.cons.injEq, and_true] at hv
    left
    rw [hv]
  · subst hu
    have h2 : [u, v].Perm [u, x] := h.trans (List.Perm.swap u x [])
    have hv := List.perm_singleton.mp (List.Perm.cons_inv h2)
    simp only [List.cons.injEq, and_true] at hv
    right
    rw [hv]

/-- C5, as stated, fails: with the parameters a (boolean, true) and b (string, x) and no
option, the stylesheet-parameters option of the wire request has no item at all; the
literal is its scalar value, and it reads `(b: 'x', a: true)` when the map of the
parameters is visited in the order b, a. -/
theorem C5_counterexample_scalar_literal :
    jobRequestToPipeline
        (sampleRequest [] [("a", ⟨.XsBoolean, "true"⟩), ("b", ⟨.other "xs:string", "x"⟩)])
        sampleLink =
      .ret ({ Script := { Href := "http://localhost:8181/ws/scripts/s" }, Nicename := "",
              Priority := "", Inputs := [],
              Options := [{ Name := "stylesheet-parameters", Value := "(a: true, b: 'x')",
                            Items := [] }] }, none) ∧
    jobRequestToPipeline
        (sampleRequest [] [("b", ⟨.other "xs:string", "x"⟩), ("a", ⟨.XsBoolean, "true"⟩)])
        sampleLink =
      .ret ({ Script := { Href := "http://localhost:8181/ws/scripts/s" }, Nicename := "",
              Priority := "", Inputs := [],
              Options := [{ Name := "stylesheet-parameters", Value := "(b: 'x', a: true)",
                            Items := [] }] }, none) := by
  refine ⟨by decide, by decide⟩

/-- C5, amended. Given a job request with exactly two stylesheet parameters, a (boolean,
value true) and b (of a type other than boolean, integer and non-negative integer, value
x), and no option, the wire request has the stylesheet-parameters option as its only
option; this option has no item and carries the literal as its scalar value, which is
`(a: true, b: 'x')` or `(b: 'x', a: true)` according to the order in which the map of the
parameters is visited. -/
theorem C5_two_parameters_literal (req : JobRequest) (p : PipelineLink) (tag : String)
    (hoptions : req.Options = [])
    (hparams : req.StylesheetParameters.Perm
      [("a", ⟨.XsBoolean, "true"⟩), ("b", ⟨.other tag, "x"⟩)]) :
    ∃ pReq value, jobRequestToPipeline req p = .ret (pReq, none) ∧
      pReq.Options = [{ Name := "stylesheet-parameters", Value := value, Items := [] }] ∧
      (value = "(a: true, b: 'x')" ∨ value = "(b: 'x', a: true)") := by
  have hvalues : ∀ nv ∈ req.Options, nv.2 ≠ [] := by
    rw [hoptions]
    intro nv hnv
    simp at hnv
  rcases perm_pair_cases hparams with h | h
  · refine ⟨_, "(a: true, b: 'x')", jobRequestToPipeline_eq req p hvalues, ?_, Or.inl rfl⟩
    rw [hoptions, h]
    rfl
  · refine ⟨_, "(b: 'x', a: true)", jobRequestToPipeline_eq req p hvalues, ?_, Or.inr rfl⟩
    rw [hoptions, h]
    rfl

/-- C5, amended, at the request whose parameters are visited in the order a, b. -/
theorem C5_two_parameters_literal_witness :
    ∃ pReq value,
      jobRequestToPipeline
        (sampleRequest [] [("a", ⟨.XsBoolean, "true"⟩), ("b", ⟨.other "xs:string", "x"⟩)])
        sampleLink = .ret (pReq, none) ∧
      pReq.Options = [{ Name := "stylesheet-parameters", Value := value, Items := [] }] ∧
      (value = "(a: true, b: 'x')" ∨ value = "(b: 'x', a: true)") :=
  C5_two_parameters_literal
    (sampleRequest [] [("a", ⟨.XsBoolean, "true"⟩), ("b", ⟨.other "xs:string", "x"⟩)])
    sampleLink "xs:string" rfl (List.Perm.refl _)

/-- C6, as stated, fails: when the caller's stylesheet-parameters option has the empty
string as its single value, that value does not become the first item of the list: the
wire option holds the literal as its only item. -/
theorem C6_counterexample_empty_scalar_dropped :
    jobRequestToPipeline
        (sampleRequest [("stylesheet-parameters", [""])] [("a", ⟨.XsBoolean, "true"⟩)])
        sampleLink =
      .ret ({ Script := { Href := "http://localhost:8181/ws/scripts/s" }, Nicename := "",
              Priority := "", Inputs := [],
              Options := [{ Name := "stylesheet-parameters", Value := "",
                            Items := [{ Value := "(a: true)" }] }] }, none) := by
  decide

/-- C6, amended. For every job request whose options all have at least one value, that has
at least one stylesheet parameter and also an option named "stylesheet-parameters", the
wire request ends with the stylesheet-parameters option, which has no scalar value and
whose last item is the synthesized literal; if the caller's option had a single value
other than the empty string, that value is the first item and the literal the second; if
its single value was the empty string, the literal is the only item; if it had two or
more values, those items are kept in order before the literal. -/
theorem C6_literal_appended_to_caller_option (req : JobRequest) (p : PipelineLink)
    (values : List String)
    (hvalues : ∀ nv ∈ req.Options, nv.2 ≠ [])
    (hkeys : distinctKeys req.Options)
    (hparams : req.StylesheetParameters ≠ [])
    (hmem : ("stylesheet-parameters", values) ∈ req.Options) :
    ∃ pReq option, jobRequestToPipeline req p = .ret (pReq, none) ∧
      pReq.Options.getLast? = some option ∧
      option.Name = "stylesheet-parameters" ∧ option.Value = "" ∧
      option.Items.getLast? = some { Value := synthesizedLiteral req } ∧
      (∀ value, values = [value] → value ≠ "" →
        option.Items = [{ Value := value }, { Value := synthesizedLiteral req }]) ∧
      (values = [""] → option.Items = [{ Value := synthesizedLiteral req }]) ∧
      (2 ≤ values.length →
        option.Items = values.map pipeline.Item.mk ++ [{ Value := synthesizedLiteral req }]) := by
  have hne : values ≠ [] := hvalues _ hmem
  have hlen : (req.StylesheetParameters.map fun np => paramEntry np.1 np.2).length > 0 := by
    cases h : req.StylesheetParameters with
    | nil => exact absurd h hparams
    | cons a l => simp
  have hlit : paramsLiteral (req.StylesheetParameters.map fun np => paramEntry np.1 np.2) =
      synthesizedLiteral req := by
    unfold synthesizedLiteral
    rw [paramsLoop_eq, List.nil_append]
  have hrun := jobRequestToPipeline_eq req p hvalues
  rw [withheldOption_of_mem req.Options {} values hkeys hmem] at hrun
  generalize synthesizedLiteral req = literal at hlit ⊢
  have hmerge : ∃ items, mergeParams (wireOption "stylesheet-parameters" values)
      (req.StylesheetParameters.map fun np => paramEntry np.1 np.2) =
        { Name := "stylesheet-parameters", Value := "", Items := items ++ [{ Value := literal }] } ∧
      (∀ value, values = [value] → value ≠ "" → items = [{ Value := value }]) ∧
      (values = [""] → items = []) ∧
      (2 ≤ values.length → items = values.map pipeline.Item.mk) := by
    unfold mergeParams
    simp only [hlen, if_true, hlit]
    obtain ⟨v, rest, rfl⟩ := List.exists_cons_of_ne_nil hne
    cases rest with
    | nil =>
      by_cases hv : v = ""
      · subst hv
        exact ⟨[], by simp [wireOption], by simp, by simp, by simp⟩
      · exact ⟨[{ Value := v }], by simp [wireOption, hv], by simp, by simp [hv], by simp⟩
    | cons w more =>
      exact ⟨(v :: w :: more).map pipeline.Item.mk, by simp [wireOption], by simp, by simp,
        by simp⟩
  obtain ⟨items, hm, h1, h2, h3⟩ := hmerge
  rw [hm] at hrun
  simp only [ne_eq, String.reduceEq, not_false_eq_true, if_true] at hrun
  refine ⟨_, { Name := "stylesheet-parameters", Value := "",
               Items := items ++ [{ Value := literal }] }, hrun, ?_, rfl, rfl, ?_, ?_, ?_, ?_⟩
  · simp
  · simp
  · intro value hv hvne
    rw [h1 value hv hvne]
    rfl
  · intro hv
    rw [h2 hv]
    rfl
  · intro hlen2
    rw [h3 hlen2]

/-- C6, amended, at a request whose stylesheet-parameters option has the single value `(c: 1)`. -/
theorem C6_literal_appended_to_caller_option_witness :
    ∃ pReq option,
      jobRequestToPipeline
        (sampleRequest [("stylesheet-parameters", ["(c: 1)"])] [("a", ⟨.XsBoolean, "true"⟩)])
        sampleLink = .ret (pReq, none) ∧
      pReq.Options.getLast? = some option ∧
      option.Name = "stylesheet-parameters" ∧ option.Value = "" ∧
      option.Items.getLast? = some { Value := "(a: true)" } ∧
      option.Items = [{ Value := "(c: 1)" }, { Value := "(a: true)" }] := by
  obtain ⟨pReq, option, h1, h2, h3, h4, h5, h6, _, _⟩ :=
    C6_literal_appended_to_caller_option
      (sampleRequest [("stylesheet-parameters", ["(c: 1)"])] [("a", ⟨.XsBoolean, "true"⟩)])
      sampleLink ["(c: 1)"] (by decide) (by decide) (by decide) (by decide)
  exact ⟨pReq, option, h1, h2, h3, h4, h5, h6 "(c: 1)" rfl (by decide)⟩

/-! ## Facts about `bringUp` and `Init` -/

/-- A call that only returns a value. -/
theorem Call.pure_eq {α : Type} (a : α) : (pure a : Call α) = Call.of (.ret a) := rfl

/-- Sequencing after a call without effect that returns. -/
theorem Call.of_ret_bind {α β : Type} (a : α) (next : α → Call β) :
    (Call.of (.ret a) >>= next) = next a := by
  show Call.bind (Call.of (.ret a)) next = next a
  simp [Call.bind, Call.of]

/-- Sequencing after a call without effect that panics. -/
theorem Call.of_panic_bind {α β : Type} (msg : String) (next : α → Call β) :
    (Call.of (.panic msg : Outcome α) >>= next) = Call.of (.panic msg) := by
  show Call.bind (Call.of (.panic msg)) next = _
  simp [Call.bind, Call.of]

/-- Sequencing after a call without effect that ends the process. -/
theorem Call.of_exit_bind {α β : Type} (code : Int) (next : α → Call β) :
    (Call.of (.exit code : Outcome α) >>= next) = Call.of (.exit code) := by
  show Call.bind (Call.of (.exit code)) next = _
  simp [Call.bind, Call.of]

/-- Sequencing after one effect. -/
theorem Call.perform_bind {β : Type} (effect : Effect) (next : Unit → Call β) :
    (Call.perform effect >>= next) =
      { effects := effect :: (next ()).effects, outcome := (next ()).outcome } := by
  show Call.bind (Call.perform effect) next = _
  simp [Call.bind, Call.perform]

/-- C7, as stated, fails: with `--port` on the command line and the string `true` under
`starting`, the liveness call failing, `bringUp` does not return the engine-unreachable
error: the assertion `.(bool)` of line 100, evaluated before the command line is looked
at, panics. -/
theorem C7_counterexample_starting_not_boolean :
    quotedStartingLink.pipeline.Alive = .error "connection refused" ∧
    "--port" ∈ pinnedEnv.Args ∧
    quotedStartingLink.config STARTING = .str "true" ∧
    bringUp pinnedEnv quotedStartingLink =
      { effects := [], outcome := .panic "interface conversion: interface {} is not bool" } ∧
    ∀ result, (bringUp pinnedEnv quotedStartingLink).outcome ≠ .ret result := by
  have h : bringUp pinnedEnv quotedStartingLink =
      { effects := [], outcome := .panic "interface conversion: interface {} is not bool" } :=
    rfl
  refine ⟨rfl, by decide, rfl, h, ?_⟩
  intro result hresult
  rw [h] at hresult
  exact Outcome.noConfusion hresult

/-- C7, amended. When the liveness call fails, the configuration value `starting` is a
boolean, and either it is false (launching is not allowed) or `--host` or `--port` is on
the command line, `bringUp` returns the engine-unreachable error, leaves the link as it
was, and neither launches an engine nor runs the host binary: it has no effect at all. -/
theorem C7_unreachable_without_launch (env : Env) (pLink : PipelineLink) (err : String)
    (starting : Bool)
    (halive : pLink.pipeline.Alive = .error err)
    (hconfig : pLink.config STARTING = .bool starting)
    (hcase : starting = false ∨ "--port" ∈ env.Args ∨ "--host" ∈ env.Args) :
    bringUp env pLink = { effects := [], outcome := .ret (pLink, some (unreachable err)) } ∧
    processesStarted (bringUp env pLink).effects = [] := by
  have hcond : (starting && !pinnedEndpoint env.Args) = false := by
    rcases hcase with h | h | h
    · simp [h]
    · simp [pinnedEndpoint, h]
    · simp [pinnedEndpoint, h]
  have h : bringUp env pLink =
      { effects := [], outcome := .ret (pLink, some (unreachable err)) } := by
    unfold bringUp
    rw [halive]
    simp only [hconfig, ConfigValue.assertBool, Call.of_ret_bind, hcond, Bool.false_eq_true,
      if_false, Call.pure_eq]
    rfl
  rw [h]
  exact ⟨rfl, rfl⟩

/-- C7, amended, at the default configuration, which does not allow starting an engine. -/
theorem C7_unreachable_without_launch_witness :
    bringUp sampleEnv sampleLink =
      { effects := [], outcome := .ret (sampleLink, some (unreachable "connection refused")) } ∧
    processesStarted (bringUp sampleEnv sampleLink).effects = [] :=
  C7_unreachable_without_launch sampleEnv sampleLink "connection refused" false rfl rfl
    (Or.inl rfl)

/-- The run of `bringUp` on the branch that forwards to the host binary. -/
theorem bringUp_forward (env : Env) (pLink : PipelineLink) (err execpath : String)
    (halive : pLink.pipeline.Alive = .error err)
    (hconfig : pLink.config STARTING = .bool true)
    (hport : "--port" ∉ env.Args) (hhost : "--host" ∉ env.Args)
    (hpath : pLink.config.ExecPath env = .ret execpath)
    (hgui : namesHostBinary execpath = true) :
    bringUp env pLink =
      { effects := [.Run (forwardPath env execpath) (forwardArgs env.Args)],
        outcome :=
          match (env.Run (forwardPath env execpath) (forwardArgs env.Args)).err with
          | some err => .ret (pLink, some (couldNotUse err))
          | none => .exit (env.Run (forwardPath env execpath) (forwardArgs env.Args)).ExitCode } := by
  have hcond : (true && !pinnedEndpoint env.Args) = true := by
    simp [pinnedEndpoint, hport, hhost]
  unfold bringUp
  rw [halive]
  simp only [hconfig, ConfigValue.assertBool, Call.of_ret_bind, hcond, if_true, hpath, hgui,
    Call.perform_bind, Call.pure_eq]
  cases (env.Run (forwardPath env execpath) (forwardArgs env.Args)).err <;> rfl

/-- C8, as stated, fails: when the host binary cannot be run, `bringUp` does not end the
process: it returns the error of line 117 to its caller. -/
theorem C8_counterexample_forward_fails :
    namesHostBinary "/opt/dp2/DAISY Pipeline" = true ∧
    startingLink.config.ExecPath sampleEnv = .ret "/opt/dp2/DAISY Pipeline" ∧
    bringUp sampleEnv startingLink =
      { effects := [.Run "/opt/dp2/DAISY Pipeline" ["scripts"]],
        outcome := .ret (startingLink, some (couldNotUse "no such file or directory")) } ∧
    ∀ code, (bringUp sampleEnv startingLink).outcome ≠ .exit code := by
  have h : bringUp sampleEnv startingLink =
      { effects := [.Run "/opt/dp2/DAISY Pipeline" ["scripts"]],
        outcome := .ret (startingLink, some (couldNotUse "no such file or directory")) } :=
    bringUp_forward sampleEnv startingLink "connection refused" "/opt/dp2/DAISY Pipeline"
      rfl rfl (by decide) (by decide) (by decide) (by decide)
  refine ⟨by decide, by decide, h, ?_⟩
  intro code hcode
  rw [h] at hcode
  exact Outcome.noConfusion hcode

/-- C8, amended. When liveness fails, launching is allowed, no endpoint is pinned and the
resolved executable path ends with the name of the host binary, `bringUp` never returns
success: it runs the host binary with the forwarded command line, launches no engine, and
then ends the process with exit code 0 if the host binary ran and ended with exit code 0,
or returns the error of line 117 if the host binary could not be run. -/
theorem C8_host_binary_never_connected (env : Env) (pLink : PipelineLink)
    (err execpath : String)
    (halive : pLink.pipeline.Alive = .error err)
    (hconfig : pLink.config STARTING = .bool true)
    (hport : "--port" ∉ env.Args) (hhost : "--host" ∉ env.Args)
    (hpath : pLink.config.ExecPath env = .ret execpath)
    (hgui : hasSuffix execpath "DAISY Pipeline" = true ∨
      hasSuffix execpath "DAISY Pipeline.exe" = true) :
    (∀ p', (bringUp env pLink).outcome ≠ .ret (p', none)) ∧
    (bringUp env pLink).effects = [.Run (forwardPath env execpath) (forwardArgs env.Args)] ∧
    (env.Run (forwardPath env execpath) (forwardArgs env.Args) = .exited 0 →
      (bringUp env pLink).outcome = .exit 0) ∧
    (∀ cause, env.Run (forwardPath env execpath) (forwardArgs env.Args) = .failed cause →
      (bringUp env pLink).outcome = .ret (pLink, some (couldNotUse cause))) := by
  have hnames : namesHostBinary execpath = true := by
    unfold namesHostBinary
    rcases hgui with h | h <;> simp [h]
  rw [bringUp_forward env pLink err execpath halive hconfig hport hhost hpath hnames]
  refine ⟨?_, rfl, ?_, ?_⟩
  · intro p' h
    simp only at h
    split at h
    · simp at h
    · exact Outcome.noConfusion h
  · intro h
    simp [h, RunResult.err, RunResult.ExitCode]
  · intro cause h
    simp [h, RunResult.err]

/-- C8, amended, on a machine where the host binary cannot be run. -/
theorem C8_host_binary_never_connected_witness :
    (∀ p', (bringUp sampleEnv startingLink).outcome ≠ .ret (p', none)) ∧
    (bringUp sampleEnv startingLink).effects = [.Run "/opt/dp2/DAISY Pipeline" ["scripts"]] ∧
    (bringUp sampleEnv startingLink).outcome =
      .ret (startingLink, some (couldNotUse "no such file or directory")) := by
  obtain ⟨h1, h2, _, h4⟩ := C8_host_binary_never_connected sampleEnv startingLink
    "connection refused" "/opt/dp2/DAISY Pipeline" rfl rfl (by decide) (by decide)
    (by decide) (Or.inl (by decide))
  exact ⟨h1, h2, h4 "no such file or directory" rfl⟩

/-- The run of `bringUp` when the first liveness call succeeds. -/
theorem bringUp_alive (env : Env) (pLink : PipelineLink) (alive : pipeline.Alive)
    (halive : pLink.pipeline.Alive = .ok alive) :
    bringUp env pLink = { effects := [], outcome := .ret (setValues pLink alive, none) } := by
  unfold bringUp
  rw [halive]
  rfl

/-- Every successful return of `bringUp` comes from a liveness answer: the one of the
first call, or the one of the engine it launched. -/
theorem bringUp_success (env : Env) (pLink : PipelineLink) (effects : List Effect)
    (p' : PipelineLink)
    (h : bringUp env pLink = { effects := effects, outcome := .ret (p', none) }) :
    ∃ alive, p' = setValues pLink alive ∧
      ((pLink.pipeline.Alive = .ok alive ∧ effects = []) ∨
        (∃ err execpath, pLink.pipeline.Alive = .error err ∧
          pLink.config.ExecPath env = .ret execpath ∧
          env.Launch execpath = .ok alive ∧ effects = [.Launch execpath])) := by
  cases halive : pLink.pipeline.Alive with
  | ok alive =>
    rw [bringUp_alive env pLink alive halive] at h
    simp only [Call.mk.injEq, Outcome.ret.injEq, Prod.mk.injEq, and_true] at h
    exact ⟨alive, h.2.symm, Or.inl ⟨rfl, h.1.symm⟩⟩
  | error err =>
    unfold bringUp at h
    rw [halive] at h
    cases hconfig : pLink.config STARTING with
    | bool starting =>
      simp only [hconfig, ConfigValue.assertBool, Call.of_ret_bind] at h
      by_cases hcond : (starting && !pinnedEndpoint env.Args) = true
      · simp only [hcond, if_true] at h
        cases hpath : pLink.config.ExecPath env with
        | ret execpath =>
          simp only [hpath, Call.of_ret_bind] at h
          by_cases hgui : namesHostBinary execpath = true
          · simp only [hgui, if_true, Call.perform_bind] at h
            cases hrun : (env.Run (forwardPath env execpath) (forwardArgs env.Args)).err with
            | none => simp [hrun, Call.of] at h
            | some e => simp [hrun, Call.pure_eq, Call.of] at h
          · simp only [hgui, Bool.false_eq_true, if_false, Call.perform_bind] at h
            cases hlaunch : env.Launch execpath with
            | error e => simp [hlaunch, Call.pure_eq, Call.of] at h
            | ok alive =>
              simp only [hlaunch, Call.pure_eq, Call.of, List.append_nil, Call.mk.injEq,
                Outcome.ret.injEq, Prod.mk.injEq, and_true] at h
              exact ⟨alive, h.2.symm, Or.inr ⟨err, execpath, rfl, rfl, hlaunch, h.1.symm⟩⟩
        | panic msg =>
          simp only [hpath, Call.of_panic_bind] at h
          simp [Call.of] at h
        | exit code =>
          simp only [hpath, Call.of_exit_bind] at h
          simp [Call.of] at h
      · simp [hcond, Call.pure_eq, Call.of] at h
    | nil =>
      simp only [hconfig, ConfigValue.assertBool, Call.of_panic_bind] at h
      simp [Call.of] at h
    | str v =>
      simp only [hconfig, ConfigValue.assertBool, Call.of_panic_bind] at h
      simp [Call.of] at h
    | int v =>
      simp only [hconfig, ConfigValue.assertBool, Call.of_panic_bind] at h
      simp [Call.of] at h
    | other v =>
      simp only [hconfig, ConfigValue.assertBool, Call.of_panic_bind] at h
      simp [Call.of] at h

/-- C9. Whenever `bringUp` returns success, the link's Version, Authentication and FsAllow
fields are those of the liveness answer that succeeded, the answer of the first call or
the one of the launched engine; and when the first liveness call succeeds, `bringUp`
returns success with that answer and starts no process. -/
theorem C9_session_from_liveness_answer (env : Env) (pLink : PipelineLink) :
    (∀ alive, pLink.pipeline.Alive = .ok alive →
      bringUp env pLink = { effects := [], outcome := .ret (setValues pLink alive, none) } ∧
      processesStarted (bringUp env pLink).effects = []) ∧
    (∀ effects p', bringUp env pLink = { effects := effects, outcome := .ret (p', none) } →
      ∃ alive, p'.Version = alive.Version ∧ p'.Authentication = alive.Authentication ∧
        p'.FsAllow = alive.FsAllow ∧
        ((pLink.pipeline.Alive = .ok alive ∧ effects = []) ∨
          (∃ err execpath, pLink.pipeline.Alive = .error err ∧
            pLink.config.ExecPath env = .ret execpath ∧
            env.Launch execpath = .ok alive ∧ effects = [.Launch execpath]))) := by
  constructor
  · intro alive halive
    rw [bringUp_alive env pLink alive halive]
    exact ⟨rfl, rfl⟩
  · intro effects p' h
    obtain ⟨alive, hp, hcases⟩ := bringUp_success env pLink effects p' h
    subst hp
    exact ⟨alive, rfl, rfl, rfl, hcases⟩

/-- Sequencing after a call that returns. -/
theorem Call.ret_bind {α β : Type} (effects : List Effect) (a : α) (next : α → Call β) :
    (({ effects := effects, outcome := .ret a } : Call α) >>= next) =
      { effects := effects ++ (next a).effects, outcome := (next a).outcome } := by
  show Call.bind _ next = _
  simp [Call.bind]

/-- A successful `bringUp` forwards no credentials. -/
theorem bringUp_no_credentials (env : Env) (pLink : PipelineLink) (effects : List Effect)
    (p' : PipelineLink)
    (h : bringUp env pLink = { effects := effects, outcome := .ret (p', none) }) :
    credentialsForwarded effects = [] := by
  obtain ⟨alive, _, hcases⟩ := bringUp_success env pLink effects p' h
  rcases hcases with ⟨_, he⟩ | ⟨_, _, _, _, _, he⟩ <;> subst he <;> rfl

/-- A string has positive length exactly when it is not the empty string. -/
theorem length_pos_iff_ne_empty (s : String) : s.length > 0 ↔ s ≠ "" := by
  rw [gt_iff_lt, Nat.pos_iff_ne_zero, ne_eq, ne_eq, not_iff_not]
  constructor
  · intro h
    have hdata : s.data = [] := List.length_eq_zero.mp h
    cases s
    simp_all
  · intro h
    subst h
    rfl

/-- The run of `Init` after a successful `bringUp`. -/
theorem Init_after_bringUp (env : Env) (p p1 : PipelineLink) (effects : List Effect)
    (hup : bringUp env p = { effects := effects, outcome := .ret (p1, none) }) :
    p.Init env =
      if p1.Authentication = true then
        match credentialsSet p1.config with
        | .ret false =>
          { effects := .SetUrl p.config.Url :: effects,
            outcome := .ret (p1, some missingCredentials) }
        | .ret true =>
          match (p1.config CLIENTKEY).assertString, (p1.config CLIENTSECRET).assertString with
          | .ret key, .ret secret =>
            { effects := .SetUrl p.config.Url :: effects ++ [.SetCredentials key secret],
              outcome := .ret (p1, none) }
          | .ret _, .panic msg => { effects := .SetUrl p.config.Url :: effects, outcome := .panic msg }
          | .ret _, .exit code => { effects := .SetUrl p.config.Url :: effects, outcome := .exit code }
          | .panic msg, _ => { effects := .SetUrl p.config.Url :: effects, outcome := .panic msg }
          | .exit code, _ => { effects := .SetUrl p.config.Url :: effects, outcome := .exit code }
        | .panic msg => { effects := .SetUrl p.config.Url :: effects, outcome := .panic msg }
        | .exit code => { effects := .SetUrl p.config.Url :: effects, outcome := .exit code }
      else { effects := .SetUrl p.config.Url :: effects, outcome := .ret (p1, none) } := by
  unfold PipelineLink.Init
  rw [Call.perform_bind, hup, Call.ret_bind]
  simp only [ne_eq, not_true_eq_false, if_false]
  by_cases hauth : p1.Authentication = true
  · simp only [hauth, if_true]
    cases hset : credentialsSet p1.config with
    | ret set =>
      cases set with
      | false =>
        simp only [Call.of_ret_bind, Bool.not_false, if_true, Call.pure_eq]
        simp [Call.of]
      | true =>
        simp only [Call.of_ret_bind, Bool.not_true, Bool.false_eq_true, if_false]
        cases hk : (p1.config CLIENTKEY).assertString with
        | ret key =>
          simp only [Call.of_ret_bind]
          cases hs : (p1.config CLIENTSECRET).assertString with
          | ret secret =>
            simp only [Call.of_ret_bind, Call.perform_bind, Call.pure_eq]
            simp [Call.of]
          | panic msg =>
            simp only [Call.of_panic_bind]
            simp [Call.of]
          | exit code =>
            simp only [Call.of_exit_bind]
            simp [Call.of]
        | panic msg =>
          simp only [Call.of_panic_bind]
          simp [Call.of]
        | exit code =>
          simp only [Call.of_exit_bind]
          simp [Call.of]
    | panic msg =>
      simp only [Call.of_panic_bind]
      simp [Call.of]
    | exit code =>
      simp only [Call.of_exit_bind]
      simp [Call.of]
  · simp [hauth, Call.pure_eq, Call.of]

/-- The condition of line 78 on a configuration whose key and secret are strings. -/
theorem credentialsSet_eq (c : Config) (key secret : String)
    (hkey : c CLIENTKEY = .str key) (hsecret : c CLIENTSECRET = .str secret) :
    credentialsSet c = .ret (decide (key ≠ "" ∧ secret ≠ "")) := by
  unfold credentialsSet
  simp only [hkey, hsecret, ConfigValue.assertString, Outcome.bind]
  by_cases hk : key = ""
  · subst hk
    simp
  · have hpos : key.length > 0 := (length_pos_iff_ne_empty key).mpr hk
    simp only [hpos, if_true, Outcome.ret.injEq]
    by_cases hs : secret = ""
    · subst hs
      simp
    · have hpos2 : secret.length > 0 := (length_pos_iff_ne_empty secret).mpr hs
      simp [hk, hs, hpos2]

/-- C10, as stated, fails: bring-up succeeds, the session requires authentication, and the
configured client key, the integer 12345, and client secret are not empty; `Init` neither
succeeds nor returns the configuration error: the assertion `.(string)` of line 78
panics, and no credentials are forwarded. -/
theorem C10_counterexample_key_not_string :
    bringUp sampleEnv numericKeyLink =
      { effects := [],
        outcome := .ret (setValues numericKeyLink
          { Version := "1.14.3", FsAllow := true, Authentication := true }, none) } ∧
    numericKeyLink.config CLIENTKEY = .int 12345 ∧
    numericKeyLink.config CLIENTSECRET = .str "supersecret" ∧
    numericKeyLink.Init sampleEnv =
      { effects := [.SetUrl "http://localhost:8181/ws/"],
        outcome := .panic "interface conversion: interface {} is not string" } ∧
    (∀ result, (numericKeyLink.Init sampleEnv).outcome ≠ .ret result) ∧
    credentialsForwarded (numericKeyLink.Init sampleEnv).effects = [] := by
  have h : numericKeyLink.Init sampleEnv =
      { effects := [.SetUrl "http://localhost:8181/ws/"],
        outcome := .panic "interface conversion: interface {} is not string" } := by
    rw [Init_after_bringUp sampleEnv numericKeyLink
      (setValues numericKeyLink { Version := "1.14.3", FsAllow := true, Authentication := true })
      [] rfl]
    rfl
  refine ⟨rfl, rfl, rfl, h, ?_, ?_⟩
  · intro result hresult
    rw [h] at hresult
    exact Outcome.noConfusion hresult
  · rw [h]
    rfl

/-- C10, amended. After a successful bring-up (`p1` is the link it leaves): if the session
requires authentication and the configured client key and client secret are strings, `key`
and `secret`, `Init` fails with the configuration error of line 79 exactly when the key or
the secret is empty, and then forwards no credentials; otherwise it succeeds and forwards
exactly the configured key and secret.  If the session does not require authentication,
`Init` succeeds and forwards no credentials. -/
theorem C10_init_credentials (env : Env) (p p1 : PipelineLink) (effects : List Effect)
    (hup : bringUp env p = { effects := effects, outcome := .ret (p1, none) }) :
    (p1.Authentication = true → ∀ key secret,
      p1.config CLIENTKEY = .str key → p1.config CLIENTSECRET = .str secret →
        ((p.Init env).outcome = .ret (p1, some missingCredentials) ↔ (key = "" ∨ secret = "")) ∧
        (key = "" ∨ secret = "" → credentialsForwarded (p.Init env).effects = []) ∧
        (¬ (key = "" ∨ secret = "") →
          (p.Init env).outcome = .ret (p1, none) ∧
          credentialsForwarded (p.Init env).effects = [(key, secret)])) ∧
    (p1.Authentication = false →
      (p.Init env).outcome = .ret (p1, none) ∧
      credentialsForwarded (p.Init env).effects = []) := by
  have hnone := bringUp_no_credentials env p effects p1 hup
  have hinit := Init_after_bringUp env p p1 effects hup
  have hcred : ∀ extra, credentialsForwarded (Effect.SetUrl p.config.Url :: effects ++ extra) =
      credentialsForwarded extra := by
    intro extra
    unfold credentialsForwarded at hnone ⊢
    simp [List.filterMap_append, hnone]
  have hcred0 : credentialsForwarded (Effect.SetUrl p.config.Url :: effects) = [] := by
    have := hcred []
    simpa [credentialsForwarded] using this
  constructor
  · intro hauth key secret hkey hsecret
    rw [hinit, if_pos hauth, credentialsSet_eq p1.config key secret hkey hsecret]
    by_cases hempty : key = "" ∨ secret = ""
    · have hdec : decide (key ≠ "" ∧ secret ≠ "") = false := by
        rw [decide_eq_false_iff_not]
        rintro ⟨h1, h2⟩
        rcases hempty with h | h
        · exact h1 h
        · exact h2 h
      simp only [hdec]
      refine ⟨⟨fun _ => hempty, fun _ => trivial⟩, fun _ => hcred0, fun h => absurd hempty h⟩
    · have hdec : decide (key ≠ "" ∧ secret ≠ "") = true := by
        rw [decide_eq_true_iff]
        exact ⟨fun h => hempty (Or.inl h), fun h => hempty (Or.inr h)⟩
      simp only [hdec, hkey, hsecret, ConfigValue.assertString]
      refine ⟨⟨fun h => ?_, fun h => absurd h hempty⟩, fun h => absurd h hempty, fun _ => ⟨trivial, ?_⟩⟩
      · simp [missingCredentials] at h
      · rw [hcred]
        rfl
  · intro hauth
    rw [hinit]
    simp only [hauth, Bool.false_eq_true, if_false]
    exact ⟨trivial, hcred0⟩

/-- C10, amended, at a webservice that requires authentication, with a key and a secret
configured. -/
theorem C10_init_credentials_witness :
    ((authLink "clientid" "supersecret").Init sampleEnv).outcome =
      .ret (setValues (authLink "clientid" "supersecret")
        { Version := "1.14.3", FsAllow := true, Authentication := true }, none) ∧
    credentialsForwarded ((authLink "clientid" "supersecret").Init sampleEnv).effects =
      [("clientid", "supersecret")] :=
  ((C10_init_credentials sampleEnv (authLink "clientid" "supersecret")
    (setValues (authLink "clientid" "supersecret")
      { Version := "1.14.3", FsAllow := true, Authentication := true }) [] rfl).1 rfl
    "clientid" "supersecret" rfl rfl).2.2 (by decide)

/-! ## Facts about `Execute` -/

/-- C11. For every job request with background = true whose marshalling and submission
succeed, `Execute` returns the submitted job, a nil error and a channel that is already
closed and on which no event is delivered, and the job is never polled for messages. -/
theorem C11_background_closed_empty (p : PipelineLink) (jobReq : JobRequest)
    (req : pipeline.JobRequest) (job : pipeline.Job)
    (hbackground : jobReq.Background = true)
    (hmarshal : jobRequestToPipeline jobReq p = .ret (req, none))
    (hsubmit : p.pipeline.JobRequest req jobReq.Data = .ok job) :
    p.Execute jobReq =
      .ret { job := job, messages := some { events := [], closed := true }, err := none,
             polled := [] } := by
  unfold PipelineLink.Execute
  rw [hmarshal]
  simp [Outcome.bind, hsubmit, hbackground]

/-- C11 at a background request sent to a webservice that would answer a poll. -/
theorem C11_background_closed_empty_witness :
    (submittingLink [.ok (runningJob [⟨0, "a", "INFO", []⟩])]).Execute backgroundRequest =
      .ret { job := runningJob [],
             messages := some { events := [], closed := true }, err := none, polled := [] } :=
  C11_background_closed_empty (submittingLink [.ok (runningJob [⟨0, "a", "INFO", []⟩])])
    backgroundRequest
    { Script := { Href := "http://localhost:8181/ws/scripts/no-such-script" }, Nicename := "",
      Priority := "", Inputs := [], Options := [] }
    (runningJob []) rfl (by decide) rfl

/-! ## Facts about `buildPath` -/

/-- The last four bytes of a name are an extension of four bytes exactly when the name ends
with it. -/
theorem lastFour_eq_iff (s ext : String) (hext : ext.length = 4) :
    (String.mk (s.toList.drop (s.length - 4)) == ext) = hasSuffix s ext := by
  rw [Bool.eq_iff_iff]
  unfold hasSuffix
  rw [List.isSuffixOf_iff_suffix, List.suffix_iff_eq_drop, beq_iff_eq]
  have h4 : ext.toList.length = 4 := hext
  rw [h4]
  constructor
  · intro h
    rw [← h]
    rfl
  · intro h
    rw [String.length, ← String.toList, ← h]
    cases ext
    rfl

/-- The test of line 153 on the last four bytes says whether the name ends with one of the
recognized extensions. -/
theorem contains_winExt (s : String) :
    winExt.contains (String.mk (s.toList.drop (s.length - 4))) = hasWinExt s := by
  unfold winExt hasWinExt winExt
  simp only [List.contains, List.elem, List.any]
  rw [← lastFour_eq_iff s ".exe" rfl, ← lastFour_eq_iff s ".bat" rfl,
    ← lastFour_eq_iff s ".cmd" rfl, ← lastFour_eq_iff s ".ps1" rfl]
  cases h1 : (String.mk (s.toList.drop (s.length - 4)) == ".exe") <;>
  cases h2 : (String.mk (s.toList.drop (s.length - 4)) == ".bat") <;>
  cases h3 : (String.mk (s.toList.drop (s.length - 4)) == ".cmd") <;>
  cases h4 : (String.mk (s.toList.drop (s.length - 4)) == ".ps1") <;> simp

/-- The method `buildPath` on Windows, for a name of at least four bytes. -/
theorem buildPath_windows (env : Env) (c : Config) (base configured : String)
    (hgoos : env.GOOS = "windows") (hconfig : c APPPATH = .str configured)
    (hlen : 4 ≤ (if configured = "" then "DAISY Pipeline" else configured).length) :
    c.buildPath env base =
      .ret (resolvePath env base
        (if hasWinExt (if configured = "" then "DAISY Pipeline" else configured)
          then (if configured = "" then "DAISY Pipeline" else configured)
          else (if configured = "" then "DAISY Pipeline" else configured) ++ ".exe")) := by
  unfold Config.buildPath
  simp only [hconfig, ConfigValue.assertString, Outcome.bind, hgoos, if_true]
  generalize (if configured = "" then "DAISY Pipeline" else configured) = execpath at hlen ⊢
  have hslice : sliceFrom execpath ((execpath.length : Int) - 4) =
      .ret (String.mk (execpath.toList.drop (execpath.length - 4))) := by
    unfold sliceFrom
    have hcond : 0 ≤ (execpath.length : Int) - 4 ∧
        (execpath.length : Int) - 4 ≤ (execpath.length : Int) := by omega
    have hnat : ((execpath.length : Int) - 4).toNat = execpath.length - 4 := by omega
    rw [if_pos hcond, hnat]
  simp only [hslice, contains_winExt]
  unfold resolvePath
  rw [hgoos]
  cases hext : hasWinExt execpath
  · simp only [Bool.not_false, if_true, Bool.false_eq_true, if_false]
    cases env.LookPath (execpath ++ ".exe") with
    | ok path => rfl
    | error e =>
      simp only
      split <;> rfl
  · simp only [Bool.not_true, Bool.false_eq_true, if_false, if_true]
    cases env.LookPath execpath with
    | ok path => rfl
    | error e =>
      simp only
      split <;> rfl

/-- C12. On Windows the configured path `dp2`, which has fewer than four bytes, makes
`buildPath` panic at the slice `execpath[len(execpath)-4:]` of line 153, where the claim
says that `.exe` is appended and the step completes.  For every name of at least four
bytes (the empty path being first replaced by `DAISY Pipeline`) the claim holds: `.exe`
is appended before the path is resolved exactly when the name does not end with `.exe`,
`.bat`, `.cmd` or `.ps1`. -/
theorem C12_windows_short_path_panics :
    (configWithAppPath "dp2").buildPath windowsEnv "C:\\dp2" =
      .panic "runtime error: slice bounds out of range" ∧
    (∀ (env : Env) (c : Config) (base configured : String),
      env.GOOS = "windows" → c APPPATH = .str configured →
      4 ≤ (if configured = "" then "DAISY Pipeline" else configured).length →
      c.buildPath env base =
        .ret (resolvePath env base
          (if hasWinExt (if configured = "" then "DAISY Pipeline" else configured)
            then (if configured = "" then "DAISY Pipeline" else configured)
            else (if configured = "" then "DAISY Pipeline" else configured) ++ ".exe"))) := by
  exact ⟨by decide, buildPath_windows⟩

/-- C13. In process-forward mode, a host binary that ends with exit code 3 does not make
the process end with exit code 3: `cmd.Run` reports the exit code as an error, and
`bringUp` returns the error of line 117 to its caller; the process exit of line 119 is
reached only with exit code 0. -/
theorem C13_forward_nonzero_exit_code :
    namesHostBinary "/opt/dp2/DAISY Pipeline" = true ∧
    startingLink.config.ExecPath (hostExits 3) = .ret "/opt/dp2/DAISY Pipeline" ∧
    bringUp (hostExits 3) startingLink =
      { effects := [.Run "/opt/dp2/DAISY Pipeline" ["scripts"]],
        outcome := .ret (startingLink, some (couldNotUse "exit status 3")) } ∧
    (bringUp (hostExits 3) startingLink).outcome ≠ .exit 3 ∧
    (bringUp (hostExits 0) startingLink).outcome = .exit 0 := by
  have h3 : bringUp (hostExits 3) startingLink =
      { effects := [.Run "/opt/dp2/DAISY Pipeline" ["scripts"]],
        outcome := .ret (startingLink, some (couldNotUse "exit status 3")) } :=
    bringUp_forward (hostExits 3) startingLink "connection refused" "/opt/dp2/DAISY Pipeline"
      rfl rfl (by decide) (by decide) (by decide) (by decide)
  have h0 : bringUp (hostExits 0) startingLink =
      { effects := [.Run "/opt/dp2/DAISY Pipeline" ["scripts"]],
        outcome := .exit 0 } :=
    bringUp_forward (hostExits 0) startingLink "connection refused" "/opt/dp2/DAISY Pipeline"
      rfl rfl (by decide) (by decide) (by decide) (by decide)
  refine ⟨by decide, by decide, h3, ?_, ?_⟩
  · rw [h3]
    exact fun h => Outcome.noConfusion h
  · rw [h0]

/-! ## More facts about `jobRequestToPipeline` -/

/-- The message of the panic raised by `values[0]` on an empty list. -/
theorem buildOption_nil (name : String) :
    buildOption name [] = .panic "runtime error: index out of range [0] with length 0" := by
  rfl

/-- The loop over the options panics when one of them has no value. -/
theorem optionsLoop_panic (entries : List (String × List String))
    (start : pipeline.Option) (options : List pipeline.Option)
    (h : ∃ nv ∈ entries, nv.2 = []) :
    optionsLoop entries start options =
      .panic "runtime error: index out of range [0] with length 0" := by
  induction entries generalizing start options with
  | nil =>
    obtain ⟨nv, hnv, _⟩ := h
    simp at hnv
  | cons nv rest ih =>
    obtain ⟨name, values⟩ := nv
    rw [optionsLoop]
    by_cases hv : values = []
    · subst hv
      rw [buildOption_nil]
      rfl
    · have hrest : ∃ nv ∈ rest, nv.2 = [] := by
        obtain ⟨x, hx, hxe⟩ := h
        simp only [List.mem_cons] at hx
        rcases hx with hx | hx
        · subst hx
          exact absurd hxe hv
        · exact ⟨x, hx, hxe⟩
      rw [buildOption_of_ne_nil name values hv]
      simp only [Outcome.bind]
      split
      · exact ih _ _ hrest
      · exact ih _ _ hrest

/-- A request with an option without value makes `jobRequestToPipeline` panic. -/
theorem jobRequestToPipeline_panic (req : JobRequest) (p : PipelineLink)
    (h : ∃ nv ∈ req.Options, nv.2 = []) :
    jobRequestToPipeline req p =
      .panic "runtime error: index out of range [0] with length 0" := by
  unfold jobRequestToPipeline jobRequestToPipelineAt
  rw [optionsLoop_panic req.Options {} [] h]
  rfl

/-- Either every option has a value, or one has none. -/
theorem values_cases (entries : List (String × List String)) :
    (∀ nv ∈ entries, nv.2 ≠ []) ∨ (∃ nv ∈ entries, nv.2 = []) := by
  by_cases h : ∃ nv ∈ entries, nv.2 = []
  · exact Or.inr h
  · left
    intro nv hnv he
    exact h ⟨nv, hnv, he⟩

/-- When `jobRequestToPipeline` returns, every option has a value, the error is nil and the
wire request is the one computed by `jobRequestToPipeline_eq`. -/
theorem jobRequestToPipeline_ret (req : JobRequest) (p : PipelineLink)
    (pReq : pipeline.JobRequest) (err : Option String)
    (h : jobRequestToPipeline req p = .ret (pReq, err)) :
    (∀ nv ∈ req.Options, nv.2 ≠ []) ∧ err = none ∧
    pReq.Script.Href = p.pipeline.ScriptUrl req.Script ∧
    pReq.Options = ordinaryOptions req.Options ++
      (if (mergeParams (withheldOption req.Options {})
            (req.StylesheetParameters.map fun np => paramEntry np.1 np.2)).Name ≠ ""
        then [mergeParams (withheldOption req.Options {})
            (req.StylesheetParameters.map fun np => paramEntry np.1 np.2)]
        else []) := by
  rcases values_cases req.Options with hv | hv
  · rw [jobRequestToPipeline_eq req p hv] at h
    simp only [Outcome.ret.injEq, Prod.mk.injEq] at h
    obtain ⟨h1, h2⟩ := h
    subst h1
    exact ⟨hv, h2.symm, rfl, rfl⟩
  · rw [jobRequestToPipeline_panic req p hv] at h
    exact Outcome.noConfusion h

/-- C14, as stated, fails: for the script id `no-such-script`, which the webservice does not
know, `jobRequestToPipeline` returns a wire request and a nil error. -/
theorem C14_counterexample_unknown_script_marshals :
    jobRequestToPipeline backgroundRequest sampleLink =
      .ret ({ Script := { Href := "http://localhost:8181/ws/scripts/no-such-script" },
              Nicename := "", Priority := "", Inputs := [], Options := [] }, none) := by
  decide

/-- C14, amended. `jobRequestToPipeline` never returns a non-nil error, whatever the script
id: for every job request whose options all have at least one value it returns a wire
request with a nil error, whose script reference is what `ScriptUrl` gives for the script
id. -/
theorem C14_marshalling_never_fails (req : JobRequest) (p : PipelineLink) :
    (∀ pReq err, jobRequestToPipeline req p ≠ .ret (pReq, some err)) ∧
    ((∀ nv ∈ req.Options, nv.2 ≠ []) →
      ∃ pReq, jobRequestToPipeline req p = .ret (pReq, none) ∧
        pReq.Script.Href = p.pipeline.ScriptUrl req.Script) := by
  constructor
  · intro pReq err h
    have := (jobRequestToPipeline_ret req p pReq (some err) h).2.1
    exact Option.noConfusion this
  · intro hv
    exact ⟨_, jobRequestToPipeline_eq req p hv, rfl⟩

/-- C14, amended, at the request for the script `no-such-script`. -/
theorem C14_marshalling_never_fails_witness :
    ∃ pReq, jobRequestToPipeline backgroundRequest sampleLink = .ret (pReq, none) ∧
      pReq.Script.Href = "http://localhost:8181/ws/scripts/no-such-script" :=
  (C14_marshalling_never_fails backgroundRequest sampleLink).2 (by decide)

/-- C20. For every job request in which every option has at least one value,
`jobRequestToPipeline` returns a wire request with a nil error; it panics, at the read of
`values[0]`, exactly on the requests that hold an option with an empty value list; and it
never ends the process. -/
theorem C20_index_defined_when_values_present (req : JobRequest) (p : PipelineLink) :
    ((∀ nv ∈ req.Options, nv.2 ≠ []) →
      ∃ pReq, jobRequestToPipeline req p = .ret (pReq, none)) ∧
    (∀ msg, jobRequestToPipeline req p = .panic msg → ∃ nv ∈ req.Options, nv.2 = []) ∧
    ((∃ nv ∈ req.Options, nv.2 = []) →
      jobRequestToPipeline req p =
        .panic "runtime error: index out of range [0] with length 0") ∧
    (∀ code, jobRequestToPipeline req p ≠ .exit code) := by
  refine ⟨fun hv => ⟨_, jobRequestToPipeline_eq req p hv⟩, ?_,
    jobRequestToPipeline_panic req p, ?_⟩
  · intro msg h
    rcases values_cases req.Options with hv | hv
    · rw [jobRequestToPipeline_eq req p hv] at h
      exact Outcome.noConfusion h
    · exact hv
  · intro code h
    rcases values_cases req.Options with hv | hv
    · rw [jobRequestToPipeline_eq req p hv] at h
      exact Outcome.noConfusion h
    · rw [jobRequestToPipeline_panic req p hv] at h
      exact Outcome.noConfusion h

/-- C20 at a request with a single-valued and a two-valued option. -/
theorem C20_index_defined_when_values_present_witness :
    ∃ pReq, jobRequestToPipeline (sampleRequest [("x", ["v"]), ("y", ["1", "2"])] [])
      sampleLink = .ret (pReq, none) :=
  (C20_index_defined_when_values_present (sampleRequest [("x", ["v"]), ("y", ["1", "2"])] [])
    sampleLink).1 (by decide)

/-- A wire option bears the name of the option it is built from. -/
theorem wireOption_name (name : String) (values : List String) :
    (wireOption name values).Name = name := by
  unfold wireOption
  split <;> rfl

/-- No ordinary option is named "stylesheet-parameters". -/
theorem ordinaryOptions_name (entries : List (String × List String)) :
    ∀ o ∈ ordinaryOptions entries, o.Name ≠ "stylesheet-parameters" := by
  intro o ho
  unfold ordinaryOptions at ho
  rw [List.mem_map] at ho
  obtain ⟨nv, hnv, rfl⟩ := ho
  rw [wireOption_name]
  rw [List.mem_filter] at hnv
  simpa using hnv.2

/-- The request has an option of a given name exactly when the name is among the keys. -/
theorem mem_keys_iff (entries : List (String × List String)) (name : String) :
    name ∈ entries.map Prod.fst ↔ ∃ values, (name, values) ∈ entries := by
  rw [List.mem_map]
  constructor
  · rintro ⟨⟨n, values⟩, hmem, rfl⟩
    exact ⟨values, hmem⟩
  · rintro ⟨values, hmem⟩
    exact ⟨(name, values), hmem, rfl⟩

/-- The name of the withheld option after the loop over the options. -/
theorem withheldOption_name (entries : List (String × List String)) (start : pipeline.Option) :
    (withheldOption entries start).Name =
      if "stylesheet-parameters" ∈ entries.map Prod.fst then "stylesheet-parameters"
      else start.Name := by
  induction entries generalizing start with
  | nil => simp [withheldOption]
  | cons nv rest ih =>
    obtain ⟨name, values⟩ := nv
    have hstep : withheldOption ((name, values) :: rest) start =
        withheldOption rest
          (if name = "stylesheet-parameters" then wireOption name values else start) := by
      unfold withheldOption
      rw [List.foldl_cons]
    rw [hstep, ih]
    by_cases hrest : "stylesheet-parameters" ∈ rest.map Prod.fst
    · have hall : "stylesheet-parameters" ∈ ((name, values) :: rest).map Prod.fst := by
        rw [List.map_cons]
        exact List.mem_cons_of_mem _ hrest
      rw [if_pos hrest, if_pos hall]
    · rw [if_neg hrest]
      by_cases hname : name = "stylesheet-parameters"
      · have hall : "stylesheet-parameters" ∈ ((name, values) :: rest).map Prod.fst := by
          simp [hname]
        rw [if_pos hname, if_pos hall, wireOption_name, hname]
      · have hall : "stylesheet-parameters" ∉ ((name, values) :: rest).map Prod.fst := by
          rw [List.map_cons, List.mem_cons]
          rintro (h | h)
          · exact hname h.symm
          · exact hrest h
        rw [if_neg hname, if_neg hall]

/-- The name of the option after the merge of the synthesized literal. -/
theorem mergeParams_name (option : pipeline.Option) (params : List String) :
    (mergeParams option params).Name =
      if params = [] then option.Name
      else if option.Name = "" then "stylesheet-parameters" else option.Name := by
  unfold mergeParams
  cases params with
  | nil => simp
  | cons a l =>
    simp only [List.length_cons, gt_iff_lt, Nat.zero_lt_succ, if_true, reduceCtorEq, if_false]
    by_cases hname : option.Name = ""
    · simp [hname]
    · simp only [hname, if_false]
      split <;> rfl

/-- C17. Whenever `jobRequestToPipeline` returns a wire request, it contains an option
named "stylesheet-parameters" if and only if the request has an option of that name or at
least one stylesheet parameter; when present it is the last option and no other option
bears that name; otherwise no option bears that name.  A wire request is returned for
every request whose options all have at least one value. -/
theorem C17_single_stylesheet_option (req : JobRequest) (p : PipelineLink) :
    (∀ pReq err, jobRequestToPipeline req p = .ret (pReq, err) →
      ((∃ o ∈ pReq.Options, o.Name = "stylesheet-parameters") ↔
        ((∃ values, ("stylesheet-parameters", values) ∈ req.Options) ∨
          req.StylesheetParameters ≠ [])) ∧
      (((∃ values, ("stylesheet-parameters", values) ∈ req.Options) ∨
          req.StylesheetParameters ≠ []) →
        ∃ others o, pReq.Options = others ++ [o] ∧ o.Name = "stylesheet-parameters" ∧
          ∀ x ∈ others, x.Name ≠ "stylesheet-parameters") ∧
      (¬ ((∃ values, ("stylesheet-parameters", values) ∈ req.Options) ∨
          req.StylesheetParameters ≠ []) →
        ∀ o ∈ pReq.Options, o.Name ≠ "stylesheet-parameters")) ∧
    ((∀ nv ∈ req.Options, nv.2 ≠ []) →
      ∃ pReq, jobRequestToPipeline req p = .ret (pReq, none)) := by
  refine ⟨?_, fun hv => ⟨_, jobRequestToPipeline_eq req p hv⟩⟩
  intro pReq err hrun
  obtain ⟨_, _, _, hopts⟩ := jobRequestToPipeline_ret req p pReq err hrun
  have hord := ordinaryOptions_name req.Options
  have hpos : ((∃ values, ("stylesheet-parameters", values) ∈ req.Options) ∨
      req.StylesheetParameters ≠ []) →
      (mergeParams (withheldOption req.Options {})
        (req.StylesheetParameters.map fun np => paramEntry np.1 np.2)).Name =
        "stylesheet-parameters" := by
    intro hcond
    rw [mergeParams_name, withheldOption_name]
    by_cases h1 : "stylesheet-parameters" ∈ req.Options.map Prod.fst
    · simp [h1]
    · have h2 : req.StylesheetParameters ≠ [] := by
        rcases hcond with h | h
        · exact absurd ((mem_keys_iff req.Options _).mpr h) h1
        · exact h
      simp [h1, h2]
  have hneg : ¬ ((∃ values, ("stylesheet-parameters", values) ∈ req.Options) ∨
      req.StylesheetParameters ≠ []) →
      (mergeParams (withheldOption req.Options {})
        (req.StylesheetParameters.map fun np => paramEntry np.1 np.2)).Name = "" := by
    intro hcond
    rw [mergeParams_name, withheldOption_name]
    have h1 : "stylesheet-parameters" ∉ req.Options.map Prod.fst :=
      fun h => hcond (Or.inl ((mem_keys_iff req.Options _).mp h))
    have h2 : req.StylesheetParameters = [] := by
      by_contra h
      exact hcond (Or.inr h)
    simp [h1, h2]
  generalize mergeParams (withheldOption req.Options {})
      (req.StylesheetParameters.map fun np => paramEntry np.1 np.2) = merged
    at hopts hpos hneg
  by_cases hcond : (∃ values, ("stylesheet-parameters", values) ∈ req.Options) ∨
      req.StylesheetParameters ≠ []
  · have hname := hpos hcond
    have hne : merged.Name ≠ "" := by
      rw [hname]
      decide
    rw [if_pos hne] at hopts
    refine ⟨⟨fun _ => hcond, fun _ => ⟨merged, ?_, hname⟩⟩,
      fun _ => ⟨_, merged, hopts, hname, hord⟩, fun h => absurd hcond h⟩
    rw [hopts]
    simp
  · have hname := hneg hcond
    have hno : ∀ o ∈ pReq.Options, o.Name ≠ "stylesheet-parameters" := by
      rw [hopts]
      simp only [hname, ne_eq, not_true_eq_false, if_false, List.append_nil]
      exact hord
    refine ⟨⟨?_, fun h => absurd h hcond⟩, fun h => absurd h hcond, fun _ => hno⟩
    rintro ⟨o, ho, hn⟩
    exact absurd hn (hno o ho)

/-- C17 at a request with an ordinary option, a stylesheet-parameters option and one
stylesheet parameter. -/
theorem C17_single_stylesheet_option_witness :
    ∃ pReq,
      jobRequestToPipeline
        (sampleRequest [("stylesheet-parameters", ["(c: 1)"]), ("x", ["v"])]
          [("a", ⟨.XsBoolean, "true"⟩)]) sampleLink = .ret (pReq, none) ∧
      ∃ others o, pReq.Options = others ++ [o] ∧ o.Name = "stylesheet-parameters" ∧
        ∀ x ∈ others, x.Name ≠ "stylesheet-parameters" := by
  obtain ⟨pReq, h⟩ := (C17_single_stylesheet_option
    (sampleRequest [("stylesheet-parameters", ["(c: 1)"]), ("x", ["v"])]
      [("a", ⟨.XsBoolean, "true"⟩)]) sampleLink).2 (by decide)
  exact ⟨pReq, h, ((C17_single_stylesheet_option
    (sampleRequest [("stylesheet-parameters", ["(c: 1)"]), ("x", ["v"])]
      [("a", ⟨.XsBoolean, "true"⟩)]) sampleLink).1 pReq none h).2.1 (Or.inr (by decide))⟩

/-! ## More facts about `flattenMessages` and `getAsyncMessages` -/

theorem nodesOf_eq (seq : Int) (content level : String) (children : List pipeline.Message)
    (depth : Nat) :
    nodesOf ⟨seq, content, level, children⟩ depth =
      (depth, ⟨seq, content, level, children⟩) :: nodes children (depth + 1) := by
  rw [nodesOf]

theorem nodes_nil (depth : Nat) : nodes [] depth = [] := by
  rw [nodes]

theorem nodes_cons (msg : pipeline.Message) (rest : List pipeline.Message) (depth : Nat) :
    nodes (msg :: rest) depth = nodesOf msg depth ++ nodes rest depth := by
  rw [nodes]

/-- The events `flattenMessages` sends are the log lines of the nodes that reach `firstSeq`,
depth first in the original order, each at its nesting level. -/
theorem flattenLoop_events (status : String) (progress : Rat) (firstSeq : Int)
    (frm : List pipeline.Message) (depth : Nat) (lastSeq : Int) :
    (flattenLoop status progress firstSeq frm depth lastSeq).1 =
      ((nodes frm depth).filter fun node => decide (node.2.Sequence ≥ firstSeq)).map
        (logLineOf status progress) := by
  refine flatten_induction status progress firstSeq
    (fun msg depth _ r => r.1 =
      ((nodesOf msg depth).filter fun node => decide (node.2.Sequence ≥ firstSeq)).map
        (logLineOf status progress))
    (fun frm depth _ r => r.1 =
      ((nodes frm depth).filter fun node => decide (node.2.Sequence ≥ firstSeq)).map
        (logLineOf status progress))
    ?_ ?_ ?_ frm depth lastSeq
  · intro seq content level children depth lastSeq ih
    simp only at ih ⊢
    rw [flattenMessage_events, nodesOf_eq, List.filter_cons, ih]
    by_cases h : seq ≥ firstSeq
    · simp [h, logLineOf]
    · simp [h]
  · intro depth lastSeq
    simp [nodes_nil]
  · intro msg rest depth lastSeq ih1 ih2
    simp only at ih1 ih2 ⊢
    rw [flattenLoop_cons, nodes_cons, List.filter_append, List.map_append, ← ih1, ← ih2]

/-- C15, as stated, fails on the return value: with the cutoff -10 the node of sequence -5 is
emitted, and the value returned is -1, which is not the sequence of an emitted node. -/
theorem C15_counterexample_negative_sequence :
    flattenMessages [⟨-5, "a", "INFO", []⟩] "RUNNING" 0 (-10) 0 =
      ([Event.LogLine (-5) "a" "INFO" 0 "RUNNING" 0], -1) := by
  decide

/-- C15, amended. For every message forest, status, progress and cutoff `firstSeq`,
`flattenMessages` emits exactly the log lines of the nodes whose sequence is at least
`firstSeq`, children of nodes below the cutoff included, depth first in the original order,
each with the nesting level of its node (the roots being at the level given) and tagged
with the status and the progress.  The value returned is the largest of -1 and the
sequences emitted: it is -1 when nothing was emitted, and the maximum sequence among the
emitted nodes when something was emitted and `firstSeq` is at least -1. -/
theorem C15_flatten_emits_preorder (frm : List pipeline.Message) (status : String)
    (progress : Rat) (firstSeq : Int) (depth : Nat) :
    (flattenMessages frm status progress firstSeq depth).1 =
      ((nodes frm depth).filter fun node => decide (node.2.Sequence ≥ firstSeq)).map
        (logLineOf status progress) ∧
    -1 ≤ (flattenMessages frm status progress firstSeq depth).2 ∧
    (∀ s ∈ logSeqs (flattenMessages frm status progress firstSeq depth).1,
      s ≤ (flattenMessages frm status progress firstSeq depth).2) ∧
    ((flattenMessages frm status progress firstSeq depth).2 = -1 ∨
      (flattenMessages frm status progress firstSeq depth).2 ∈
        logSeqs (flattenMessages frm status progress firstSeq depth).1) ∧
    ((flattenMessages frm status progress firstSeq depth).1 = [] →
      (flattenMessages frm status progress firstSeq depth).2 = -1) ∧
    (-1 ≤ firstSeq → (flattenMessages frm status progress firstSeq depth).1 ≠ [] →
      (flattenMessages frm status progress firstSeq depth).2 ∈
        logSeqs (flattenMessages frm status progress firstSeq depth).1) := by
  unfold flattenMessages
  have hev := flattenLoop_events status progress firstSeq frm depth (-1)
  have hseqs := flattenLoop_logSeqs status progress firstSeq frm depth (-1)
  obtain ⟨h1, h2, h3⟩ := flattenLoop_last status progress firstSeq frm depth (-1)
  have h3' : (flattenLoop status progress firstSeq frm depth (-1)).2 = -1 ∨
      (flattenLoop status progress firstSeq frm depth (-1)).2 ∈
        logSeqs (flattenLoop status progress firstSeq frm depth (-1)).1 := by
    rcases h3 with h | h | h
    · exact Or.inl h
    · exact Or.inl h
    · exact Or.inr h
  refine ⟨hev, h1, h2, h3', ?_, ?_⟩
  · intro hnil
    rw [hnil] at h3'
    simpa [logSeqs] using h3'
  · intro hfirst hne
    rcases h3' with h | h
    · obtain ⟨e, rest, hcons⟩ := List.exists_cons_of_ne_nil hne
      have hmem : e ∈ (flattenLoop status progress firstSeq frm depth (-1)).1 := by
        rw [hcons]
        simp
      rw [hev, List.mem_map] at hmem
      obtain ⟨node, hnode, rfl⟩ := hmem
      rw [List.mem_filter] at hnode
      have hge : node.2.Sequence ≥ firstSeq := by simpa using hnode.2
      have hin : node.2.Sequence ∈
          logSeqs (flattenLoop status progress firstSeq frm depth (-1)).1 := by
        rw [hcons]
        simp [logSeqs, logLineOf, Event.seq?]
      have hle := h2 _ hin
      have heq : node.2.Sequence = (flattenLoop status progress firstSeq frm depth (-1)).2 := by
        omega
      rw [← heq]
      exact hin
    · exact h

/-- The log lines of a forest carry the sequence numbers of their nodes. -/
theorem logSeqs_map_logLineOf (status : String) (progress : Rat)
    (l : List (Nat × pipeline.Message)) :
    logSeqs (l.map (logLineOf status progress)) = l.map fun node => node.2.Sequence := by
  induction l with
  | nil => rfl
  | cons a rest ih =>
    simp only [List.map_cons, logSeqs, List.filterMap_cons, logLineOf, Event.seq?]
    rw [← ih]
    rfl

/-- No log line is a heartbeat. -/
theorem progressOnly_map_logLineOf (status : String) (progress : Rat)
    (l : List (Nat × pipeline.Message)) :
    progressOnly (l.map (logLineOf status progress)) = [] := by
  induction l with
  | nil => rfl
  | cons a rest ih =>
    simp only [List.map_cons, progressOnly, List.filter_cons, logLineOf]
    exact ih

/-- Inside the range, a round leaves the cursor below the largest `int`. -/
theorem pollRound_cursor_lt (msgSeq : Int) (job : pipeline.Job)
    (h0 : -1 ≤ msgSeq) (h1 : msgSeq < maxInt)
    (hrange : ∀ s ∈ preorder job.Messages.Message, s < maxInt) :
    (pollRound msgSeq job).2 < maxInt := by
  rcases pollRound_cursor_mem msgSeq job h0 with hm | hm
  · omega
  · rw [pollRound_logSeqs, List.mem_filter] at hm
    exact hrange _ hm.1

/-- A round entered with a cursor from -1 to below the largest `int`: either log lines are
emitted, the cursor advances to the largest sequence number among them and no heartbeat is
sent; or no log line is emitted, the cursor stays and the only event is one heartbeat. -/
theorem pollRound_cases (msgSeq : Int) (job : pipeline.Job)
    (h0 : -1 ≤ msgSeq) (h1 : msgSeq < maxInt) :
    (logSeqs (pollRound msgSeq job).1 ≠ [] ∧ msgSeq < (pollRound msgSeq job).2 ∧
      (pollRound msgSeq job).2 ∈ logSeqs (pollRound msgSeq job).1 ∧
      (∀ s ∈ logSeqs (pollRound msgSeq job).1, s ≤ (pollRound msgSeq job).2) ∧
      progressOnly (pollRound msgSeq job).1 = []) ∨
    (logSeqs (pollRound msgSeq job).1 = [] ∧ (pollRound msgSeq job).2 = msgSeq ∧
      (pollRound msgSeq job).1 = [Event.ProgressOnly job.Messages.Progress]) := by
  have hwrap : wrapInt (msgSeq + 1) = msgSeq + 1 := by
    apply wrapInt_of_range
    · unfold minInt
      omega
    · omega
  have hseqs := pollRound_logSeqs msgSeq job
  rw [hwrap] at hseqs
  have hcur := pollRound_cursor msgSeq job
  have hev := pollRound_events msgSeq job
  have hflat := flattenLoop_events job.Status job.Messages.Progress (wrapInt (msgSeq + 1))
    job.Messages.Message 0 (-1)
  by_cases hempty : logSeqs (pollRound msgSeq job).1 = []
  · right
    have hcur2 : (pollRound msgSeq job).2 = msgSeq := by
      rcases pollRound_cursor_mem msgSeq job h0 with hm | hm
      · exact hm
      · rw [hempty] at hm
        simp at hm
    refine ⟨hempty, hcur2, ?_⟩
    have hflatnil : (flattenLoop job.Status job.Messages.Progress (wrapInt (msgSeq + 1))
        job.Messages.Message 0 (-1)).1 = [] := by
      have hsub : logSeqs (flattenLoop job.Status job.Messages.Progress (wrapInt (msgSeq + 1))
          job.Messages.Message 0 (-1)).1 = [] := by
        rw [flattenLoop_logSeqs, hwrap, ← hseqs]
        exact hempty
      rw [hflat, logSeqs_map_logLineOf, List.map_eq_nil_iff] at hsub
      rw [hflat, hsub]
      rfl
    rw [hev, hflatnil, hcur2]
    simp
  · left
    obtain ⟨s, rest, hcons⟩ := List.exists_cons_of_ne_nil hempty
    have hs : s ∈ logSeqs (pollRound msgSeq job).1 := by
      rw [hcons]
      simp
    have hle := hcur.2 s hs
    have hgt : msgSeq < s := by
      rw [hseqs, List.mem_filter] at hs
      have := hs.2
      simp only [ge_iff_le, decide_eq_true_eq] at this
      omega
    have hadv : msgSeq < (pollRound msgSeq job).2 := by omega
    refine ⟨hempty, hadv, ?_, hcur.2, ?_⟩
    · rcases pollRound_cursor_mem msgSeq job h0 with hm | hm
      · omega
      · exact hm
    · rw [hev, hflat]
      have hgt2 : (pollRound msgSeq job).2 > msgSeq := hadv
      simp only [hgt2, if_true, List.append_nil]
      exact progressOnly_map_logLineOf _ _ _

theorem roundStatesLoop_nil (msgSeq : Int) : roundStatesLoop [] msgSeq = [] := by
  rw [roundStatesLoop]

theorem roundStatesLoop_error (err : String) (rest : List (Except String pipeline.Job))
    (msgSeq : Int) : roundStatesLoop (.error err :: rest) msgSeq = [] := by
  rw [roundStatesLoop]

theorem roundStatesLoop_terminal (job : pipeline.Job)
    (rest : List (Except String pipeline.Job)) (msgSeq : Int)
    (h : isTerminalStatus job.Status = true) :
    roundStatesLoop (.ok job :: rest) msgSeq = [(msgSeq, job)] := by
  rw [roundStatesLoop]
  simp only [h, if_true]

theorem roundStatesLoop_running (job : pipeline.Job)
    (rest : List (Except String pipeline.Job)) (msgSeq : Int)
    (h : isTerminalStatus job.Status = false) :
    roundStatesLoop (.ok job :: rest) msgSeq =
      (msgSeq, job) :: roundStatesLoop rest (pollRound msgSeq job).2 := by
  rw [roundStatesLoop]
  simp only [h, Bool.false_eq_true, if_false]

/-- Along a run started inside the range, when no polled tree holds the largest `int`, every
round is entered with a cursor from the start cursor to below the largest `int`. -/
theorem roundStatesLoop_range (polls : List (Except String pipeline.Job)) (msgSeq : Int)
    (h0 : -1 ≤ msgSeq) (h1 : msgSeq < maxInt)
    (hrange : ∀ job ∈ okJobs polls, ∀ s ∈ preorder job.Messages.Message, s < maxInt) :
    ∀ state ∈ roundStatesLoop polls msgSeq, msgSeq ≤ state.1 ∧ state.1 < maxInt := by
  induction polls generalizing msgSeq with
  | nil => simp [roundStatesLoop_nil]
  | cons r rest ih =>
    cases r with
    | error err => simp [roundStatesLoop_error]
    | ok job =>
      have hjob : job ∈ okJobs (Except.ok job :: rest) := by simp [okJobs]
      have hrest : ∀ j ∈ okJobs rest, j ∈ okJobs (Except.ok job :: rest) := by
        intro j hj
        simp [okJobs, hj]
      by_cases h : isTerminalStatus job.Status = true
      · rw [roundStatesLoop_terminal job rest msgSeq h]
        intro state hstate
        simp only [List.mem_singleton] at hstate
        subst hstate
        exact ⟨le_refl _, h1⟩
      · have h2 : isTerminalStatus job.Status = false := by simpa using h
        rw [roundStatesLoop_running job rest msgSeq h2]
        intro state hstate
        simp only [List.mem_cons] at hstate
        rcases hstate with hstate | hstate
        · subst hstate
          exact ⟨le_refl _, h1⟩
        · have hcur := (pollRound_cursor msgSeq job).1
          have hlt := pollRound_cursor_lt msgSeq job h0 h1 (hrange job hjob)
          have := ih (pollRound msgSeq job).2 (by omega) hlt
            (fun j hj => hrange j (hrest j hj)) state hstate
          exact ⟨by omega, this.2⟩

/-- The events of a run are those of its successful rounds, in order, followed by the
events that end the stream. -/
theorem getAsyncMessagesLoop_events_rounds (polls : List (Except String pipeline.Job))
    (msgSeq : Int) :
    (getAsyncMessagesLoop polls msgSeq).events =
      ((roundStatesLoop polls msgSeq).map fun state => (pollRound state.1 state.2).1).flatten ++
        (getAsyncMessagesLoop polls msgSeq).events.filter Event.isFinal := by
  induction polls generalizing msgSeq with
  | nil => simp [getAsyncMessagesLoop_nil, roundStatesLoop_nil]
  | cons r rest ih =>
    cases r with
    | error err =>
      simp [getAsyncMessagesLoop_error, roundStatesLoop_error, Event.isFinal]
    | ok job =>
      have hfilter : (pollRound msgSeq job).1.filter Event.isFinal = [] := by
        rw [List.filter_eq_nil_iff]
        intro e he
        simp [pollRound_not_final msgSeq job e he]
      by_cases h : isTerminalStatus job.Status = true
      · rw [getAsyncMessagesLoop_terminal job rest msgSeq h,
          roundStatesLoop_terminal job rest msgSeq h]
        simp [List.filter_append, hfilter, Event.isFinal]
      · have h2 : isTerminalStatus job.Status = false := by simpa using h
        rw [getAsyncMessagesLoop_running job rest msgSeq h2,
          roundStatesLoop_running job rest msgSeq h2]
        simp only [List.map_cons, List.flatten_cons, List.filter_append, hfilter,
          List.nil_append, List.append_assoc]
        rw [← ih]

/-- C16, as stated, fails: when the first round has delivered the largest `int`, the cutoff of
the second round wraps around, and that round emits a log line, leaves the cursor where it
was and emits a heartbeat as well. -/
theorem C16_counterexample_log_line_and_heartbeat :
    roundStates
      [.ok (runningJob [⟨9223372036854775807, "a", "INFO", []⟩]),
       .ok (runningJob [⟨9223372036854775807, "a", "INFO", []⟩])] =
      [(-1, runningJob [⟨9223372036854775807, "a", "INFO", []⟩]),
       (9223372036854775807, runningJob [⟨9223372036854775807, "a", "INFO", []⟩])] ∧
    pollRound 9223372036854775807 (runningJob [⟨9223372036854775807, "a", "INFO", []⟩]) =
      ([Event.LogLine 9223372036854775807 "a" "INFO" 0 "RUNNING" 0, Event.ProgressOnly 0],
        9223372036854775807) := by
  refine ⟨rfl, by decide⟩

/-- C16, amended. In a run of `getAsyncMessages` in which no polled tree holds the largest
`int` as a sequence number, every successful poll round is in exactly one of two cases:
either at least one log line is emitted, the cursor advances to the largest sequence
number emitted in the round and no heartbeat is emitted; or no log line is emitted, the
cursor is left unchanged and the only event of the round is one heartbeat carrying the
progress of the poll.  The events of the stream are those of the rounds, in order,
followed by the event that ends the stream, if any. -/
theorem C16_round_log_lines_or_heartbeat (polls : List (Except String pipeline.Job))
    (hrange : ∀ job ∈ okJobs polls, ∀ s ∈ preorder job.Messages.Message, s < maxInt) :
    (∀ state ∈ roundStates polls,
      (logSeqs (pollRound state.1 state.2).1 ≠ [] ∧
        state.1 < (pollRound state.1 state.2).2 ∧
        (pollRound state.1 state.2).2 ∈ logSeqs (pollRound state.1 state.2).1 ∧
        (∀ s ∈ logSeqs (pollRound state.1 state.2).1, s ≤ (pollRound state.1 state.2).2) ∧
        progressOnly (pollRound state.1 state.2).1 = []) ∨
      (logSeqs (pollRound state.1 state.2).1 = [] ∧
        (pollRound state.1 state.2).2 = state.1 ∧
        (pollRound state.1 state.2).1 = [Event.ProgressOnly state.2.Messages.Progress])) ∧
    (getAsyncMessages polls).events =
      (rounds polls).flatten ++ (getAsyncMessages polls).events.filter Event.isFinal := by
  have hmax : (-1 : Int) < maxInt := by
    unfold maxInt
    omega
  constructor
  · intro state hstate
    have hr := roundStatesLoop_range polls (-1) (le_refl _) hmax hrange state hstate
    exact pollRound_cases state.1 state.2 hr.1 hr.2
  · exact getAsyncMessagesLoop_events_rounds polls (-1)

/-- C16, amended, at a run of two rounds: the first delivers the sequence numbers 0 and 1,
the second finds nothing new and sends a heartbeat. -/
theorem C16_round_log_lines_or_heartbeat_witness :
    (∀ state ∈ roundStates quietPolls,
      (logSeqs (pollRound state.1 state.2).1 ≠ [] ∧
        state.1 < (pollRound state.1 state.2).2 ∧
        (pollRound state.1 state.2).2 ∈ logSeqs (pollRound state.1 state.2).1 ∧
        (∀ s ∈ logSeqs (pollRound state.1 state.2).1, s ≤ (pollRound state.1 state.2).2) ∧
        progressOnly (pollRound state.1 state.2).1 = []) ∨
      (logSeqs (pollRound state.1 state.2).1 = [] ∧
        (pollRound state.1 state.2).2 = state.1 ∧
        (pollRound state.1 state.2).1 = [Event.ProgressOnly state.2.Messages.Progress])) ∧
    (getAsyncMessages quietPolls).events =
      (rounds quietPolls).flatten ++ (getAsyncMessages quietPolls).events.filter Event.isFinal :=
  C16_round_log_lines_or_heartbeat quietPolls (by decide)

/-- The cursor of a run never decreases: the cursors passed to the successive polls are in
non-decreasing order, from the start cursor up to the final value of `msgSeq`. -/
theorem getAsyncMessagesLoop_cursors (polls : List (Except String pipeline.Job)) (msgSeq : Int) :
    (∀ c ∈ (getAsyncMessagesLoop polls msgSeq).cursors, msgSeq ≤ c) ∧
    (getAsyncMessagesLoop polls msgSeq).cursors.Pairwise (· ≤ ·) ∧
    msgSeq ≤ (getAsyncMessagesLoop polls msgSeq).msgSeq ∧
    (∀ c ∈ (getAsyncMessagesLoop polls msgSeq).cursors,
      c ≤ (getAsyncMessagesLoop polls msgSeq).msgSeq) := by
  induction polls generalizing msgSeq with
  | nil => simp [getAsyncMessagesLoop_nil]
  | cons r rest ih =>
    cases r with
    | error err => simp [getAsyncMessagesLoop_error]
    | ok job =>
      have hcur := (pollRound_cursor msgSeq job).1
      by_cases h : isTerminalStatus job.Status = true
      · rw [getAsyncMessagesLoop_terminal job rest msgSeq h]
        simp [hcur]
      · have h2 : isTerminalStatus job.Status = false := by simpa using h
        rw [getAsyncMessagesLoop_running job rest msgSeq h2]
        obtain ⟨i1, i2, i3, i4⟩ := ih (pollRound msgSeq job).2
        simp only [List.mem_cons, List.pairwise_cons]
        refine ⟨?_, ⟨?_, i2⟩, by omega, ?_⟩
        · rintro c (hc | hc)
          · omega
          · have := i1 c hc
            omega
        · intro c hc
          have := i1 c hc
          omega
        · rintro c (hc | hc)
          · omega
          · exact i4 c hc

/-- Along a run started inside the range, when no polled tree holds the largest `int`: every
sequence number delivered is above the start cursor, and every sequence number delivered
in a round is above those delivered in the rounds before. -/
theorem roundStatesLoop_increasing (polls : List (Except String pipeline.Job)) (msgSeq : Int)
    (h0 : -1 ≤ msgSeq) (h1 : msgSeq < maxInt)
    (hrange : ∀ job ∈ okJobs polls, ∀ s ∈ preorder job.Messages.Message, s < maxInt) :
    (∀ seqs ∈ (roundStatesLoop polls msgSeq).map
        (fun state => logSeqs (pollRound state.1 state.2).1), ∀ s ∈ seqs, msgSeq < s) ∧
    ((roundStatesLoop polls msgSeq).map
        fun state => logSeqs (pollRound state.1 state.2).1).Pairwise
      (fun earlier later => ∀ x ∈ earlier, ∀ y ∈ later, x < y) := by
  induction polls generalizing msgSeq with
  | nil => simp [roundStatesLoop_nil]
  | cons r rest ih =>
    cases r with
    | error err => simp [roundStatesLoop_error]
    | ok job =>
      have hjob : job ∈ okJobs (Except.ok job :: rest) := by simp [okJobs]
      have hrest : ∀ j ∈ okJobs rest, j ∈ okJobs (Except.ok job :: rest) := by
        intro j hj
        simp [okJobs, hj]
      have hwrap : wrapInt (msgSeq + 1) = msgSeq + 1 := by
        apply wrapInt_of_range
        · unfold minInt
          omega
        · omega
      have hseqs := pollRound_logSeqs msgSeq job
      rw [hwrap] at hseqs
      have hround_gt : ∀ s ∈ logSeqs (pollRound msgSeq job).1, msgSeq < s := by
        intro s hs
        rw [hseqs, List.mem_filter] at hs
        have := hs.2
        simp only [ge_iff_le, decide_eq_true_eq] at this
        omega
      have hcur := pollRound_cursor msgSeq job
      by_cases h : isTerminalStatus job.Status = true
      · rw [roundStatesLoop_terminal job rest msgSeq h]
        simp only [List.map_cons, List.map_nil, List.mem_singleton, List.pairwise_cons,
          List.not_mem_nil, false_implies, implies_true, List.Pairwise.nil, and_self, and_true]
        intro seqs hseq
        subst hseq
        exact hround_gt
      · have h2 : isTerminalStatus job.Status = false := by simpa using h
        rw [roundStatesLoop_running job rest msgSeq h2]
        have hlt := pollRound_cursor_lt msgSeq job h0 h1 (hrange job hjob)
        obtain ⟨ih1, ih2⟩ := ih (pollRound msgSeq job).2 (by omega) hlt
          (fun j hj => hrange j (hrest j hj))
        simp only [List.map_cons, List.mem_cons, List.pairwise_cons]
        refine ⟨?_, ?_, ih2⟩
        · rintro seqs (hseq | hseq) s hs
          · subst hseq
            exact hround_gt s hs
          · have := ih1 seqs hseq s hs
            omega
        · intro later hlater x hx y hy
          have := ih1 later hlater y hy
          have := hcur.2 x hx
          omega

/-- C19, as stated, fails: when the first round has delivered the largest `int`, the cutoff of
the second round wraps around and the same message is delivered again; the sequence
number of the second round is not above the one of the first. -/
theorem C19_counterexample_redelivery :
    (rounds overflowPolls).map logSeqs = [[9223372036854775807], [9223372036854775807]] ∧
    (getAsyncMessages overflowPolls).cursors = [-1, 9223372036854775807] := by
  refine ⟨by decide, by decide⟩

/-- C19, amended. For every sequence of poll results the cursor `msgSeq` never decreases:
the cursors of the successive polls are in non-decreasing order and none exceeds the
final value of `msgSeq`.  The log lines of the stream are those of the successive rounds;
and when no polled tree holds the largest `int` as a sequence number, every log line
emitted in a round has a sequence number strictly greater than that of every log line
emitted in an earlier round. -/
theorem C19_cursor_monotone_no_redelivery (polls : List (Except String pipeline.Job)) :
    (getAsyncMessages polls).cursors.Pairwise (· ≤ ·) ∧
    (∀ c ∈ (getAsyncMessages polls).cursors, -1 ≤ c ∧ c ≤ (getAsyncMessages polls).msgSeq) ∧
    logSeqs (getAsyncMessages polls).events = ((rounds polls).map logSeqs).flatten ∧
    ((∀ job ∈ okJobs polls, ∀ s ∈ preorder job.Messages.Message, s < maxInt) →
      ((rounds polls).map logSeqs).Pairwise
        (fun earlier later => ∀ x ∈ earlier, ∀ y ∈ later, x < y)) := by
  obtain ⟨c1, c2, _, c4⟩ := getAsyncMessagesLoop_cursors polls (-1)
  refine ⟨c2, fun c hc => ⟨c1 c hc, c4 c hc⟩, ?_, ?_⟩
  · unfold getAsyncMessages
    rw [getAsyncMessagesLoop_events_rounds polls (-1)]
    have hfin : logSeqs ((getAsyncMessagesLoop polls (-1)).events.filter Event.isFinal) = [] := by
      unfold logSeqs
      rw [List.filterMap_eq_nil_iff]
      intro e he
      rw [List.mem_filter] at he
      cases e <;> simp [Event.isFinal] at he <;> rfl
    unfold logSeqs at hfin ⊢
    rw [List.filterMap_append, hfin, List.append_nil]
    unfold rounds roundStates
    generalize roundStatesLoop polls (-1) = states
    induction states with
    | nil => rfl
    | cons a rest ih =>
      simp only [List.map_cons, List.flatten_cons, List.filterMap_append, ih]
  · intro hrange
    have hmax : (-1 : Int) < maxInt := by
      unfold maxInt
      omega
    have h := (roundStatesLoop_increasing polls (-1) (le_refl _) hmax hrange).2
    unfold rounds roundStates
    rw [List.map_map]
    exact h

/-- C19, amended, at a run of two rounds: the first delivers 0 and 1, the second delivers 2. -/
theorem C19_cursor_monotone_no_redelivery_witness :
    (getAsyncMessages growingPolls).cursors = [-1, 1] ∧
    (rounds growingPolls).map logSeqs = [[0, 1], [2]] ∧
    ((rounds growingPolls).map logSeqs).Pairwise
      (fun earlier later => ∀ x ∈ earlier, ∀ y ∈ later, x < y) :=
  ⟨by decide, by decide, (C19_cursor_monotone_no_redelivery growingPolls).2.2.2 (by decide)⟩

/-! ## More facts about `bringUp` and `Init` -/

/-- Sequencing after a call that panics. -/
theorem Call.panic_bind {α β : Type} (effects : List Effect) (msg : String)
    (next : α → Call β) :
    (({ effects := effects, outcome := .panic msg } : Call α) >>= next) =
      { effects := effects, outcome := .panic msg } := by
  show Call.bind _ next = _
  simp [Call.bind]

/-- Sequencing after a call that ends the process. -/
theorem Call.exit_bind {α β : Type} (effects : List Effect) (code : Int)
    (next : α → Call β) :
    (({ effects := effects, outcome := .exit code } : Call α) >>= next) =
      { effects := effects, outcome := .exit code } := by
  show Call.bind _ next = _
  simp [Call.bind]

/-- When `bringUp` returns an error it leaves the link as it was. -/
theorem bringUp_error (env : Env) (pLink : PipelineLink) (effects : List Effect)
    (p' : PipelineLink) (e : String)
    (h : bringUp env pLink = { effects := effects, outcome := .ret (p', some e) }) :
    p' = pLink := by
  cases halive : pLink.pipeline.Alive with
  | ok alive =>
    rw [bringUp_alive env pLink alive halive] at h
    simp at h
  | error err =>
    unfold bringUp at h
    rw [halive] at h
    cases hconfig : pLink.config STARTING with
    | bool starting =>
      simp only [hconfig, ConfigValue.assertBool, Call.of_ret_bind] at h
      by_cases hcond : (starting && !pinnedEndpoint env.Args) = true
      · simp only [hcond, if_true] at h
        cases hpath : pLink.config.ExecPath env with
        | ret execpath =>
          simp only [hpath, Call.of_ret_bind] at h
          by_cases hgui : namesHostBinary execpath = true
          · simp only [hgui, if_true, Call.perform_bind] at h
            cases hrun : (env.Run (forwardPath env execpath) (forwardArgs env.Args)).err with
            | none => simp [hrun, Call.of] at h
            | some e2 =>
              simp only [hrun, Call.pure_eq, Call.of, Call.mk.injEq, Outcome.ret.injEq,
                Prod.mk.injEq] at h
              exact h.2.1.symm
          · simp only [hgui, Bool.false_eq_true, if_false, Call.perform_bind] at h
            cases hlaunch : env.Launch execpath with
            | error e2 =>
              simp only [hlaunch, Call.pure_eq, Call.of, Call.mk.injEq, Outcome.ret.injEq,
                Prod.mk.injEq] at h
              exact h.2.1.symm
            | ok alive => simp [hlaunch, Call.pure_eq, Call.of] at h
        | panic msg =>
          simp only [hpath, Call.of_panic_bind] at h
          simp [Call.of] at h
        | exit code =>
          simp only [hpath, Call.of_exit_bind] at h
          simp [Call.of] at h
      · simp only [hcond, Bool.false_eq_true, if_false, Call.pure_eq, Call.of, Call.mk.injEq,
          Outcome.ret.injEq, Prod.mk.injEq] at h
        exact h.2.1.symm
    | nil =>
      simp only [hconfig, ConfigValue.assertBool, Call.of_panic_bind] at h
      simp [Call.of] at h
    | str v =>
      simp only [hconfig, ConfigValue.assertBool, Call.of_panic_bind] at h
      simp [Call.of] at h
    | int v =>
      simp only [hconfig, ConfigValue.assertBool, Call.of_panic_bind] at h
      simp [Call.of] at h
    | other v =>
      simp only [hconfig, ConfigValue.assertBool, Call.of_panic_bind] at h
      simp [Call.of] at h

/-- The run of `Init` when `bringUp` returns an error. -/
theorem Init_after_failed_bringUp (env : Env) (p p1 : PipelineLink) (effects : List Effect)
    (e : String)
    (hup : bringUp env p = { effects := effects, outcome := .ret (p1, some e) }) :
    p.Init env =
      { effects := .SetUrl p.config.Url :: effects, outcome := .ret (p1, some e) } := by
  unfold PipelineLink.Init
  rw [Call.perform_bind, hup, Call.ret_bind]
  simp [Call.pure_eq, Call.of]

/-- When `Init` returns an error, either `bringUp` returned it and the link is as it was, or
`bringUp` succeeded, the link holds the liveness answer, which requires authentication,
and the error is the one of line 79. -/
theorem Init_error (env : Env) (p p' : PipelineLink) (effects : List Effect) (e : String)
    (h : p.Init env = { effects := effects, outcome := .ret (p', some e) }) :
    (p' = p ∧ ∃ eff, bringUp env p = { effects := eff, outcome := .ret (p, some e) }) ∨
    (e = missingCredentials ∧ ∃ eff alive,
      bringUp env p = { effects := eff, outcome := .ret (setValues p alive, none) } ∧
      p' = setValues p alive ∧ alive.Authentication = true) := by
  cases hb : bringUp env p with
  | mk eff outcome =>
    cases outcome with
    | ret result =>
      obtain ⟨p1, err⟩ := result
      cases err with
      | some e1 =>
        rw [Init_after_failed_bringUp env p p1 eff e1 hb] at h
        simp only [Call.mk.injEq, Outcome.ret.injEq, Prod.mk.injEq, Option.some.injEq] at h
        obtain ⟨_, hp, he⟩ := h
        have hsame := bringUp_error env p eff p1 e1 hb
        subst hp
        subst he
        subst hsame
        exact Or.inl ⟨rfl, eff, rfl⟩
      | none =>
        obtain ⟨alive, hp1, _⟩ := bringUp_success env p eff p1 hb
        rw [Init_after_bringUp env p p1 eff hb] at h
        by_cases hauth : p1.Authentication = true
        · rw [if_pos hauth] at h
          have halive : alive.Authentication = true := by
            rw [hp1] at hauth
            exact hauth
          cases hset : credentialsSet p1.config with
          | ret set =>
            cases set with
            | false =>
              simp only [hset, Call.mk.injEq, Outcome.ret.injEq, Prod.mk.injEq,
                Option.some.injEq] at h
              obtain ⟨_, hp, he⟩ := h
              right
              refine ⟨he.symm, eff, alive, ?_, ?_, halive⟩
              · rw [← hp1]
              · rw [← hp, hp1]
            | true =>
              simp only [hset] at h
              split at h <;> simp at h
          | panic msg => simp [hset] at h
          | exit code => simp [hset] at h
        · simp [hauth] at h
    | panic msg =>
      unfold PipelineLink.Init at h
      rw [Call.perform_bind, hb, Call.panic_bind] at h
      simp at h
    | exit code =>
      unfold PipelineLink.Init at h
      rw [Call.perform_bind, hb, Call.exit_bind] at h
      simp at h

/-- C18, as stated, fails: against a webservice that requires authentication, with no
credentials configured, `Init` returns the error of line 79 and the link holds the version
and the flags of the liveness answer, which it did not hold before the call. -/
theorem C18_counterexample_missing_credentials :
    (authLink "" "").Init sampleEnv =
      { effects := [.SetUrl "http://localhost:8181/ws/"],
        outcome := .ret (setValues (authLink "" "")
          { Version := "1.14.3", FsAllow := true, Authentication := true },
          some missingCredentials) } ∧
    (authLink "" "").Version = "" ∧
    (setValues (authLink "" "")
      { Version := "1.14.3", FsAllow := true, Authentication := true }).Version = "1.14.3" ∧
    (authLink "" "").Authentication = false ∧
    (setValues (authLink "" "")
      { Version := "1.14.3", FsAllow := true, Authentication := true }).Authentication = true := by
  refine ⟨?_, rfl, rfl, rfl, rfl⟩
  rw [Init_after_bringUp sampleEnv (authLink "" "")
    (setValues (authLink "" "") { Version := "1.14.3", FsAllow := true, Authentication := true })
    [] rfl]
  rfl

/-- C18, amended. If `Init` returns an error, then either bring-up failed with that error and
the link, its Version, Authentication and FsAllow fields included, is the same as before
the call; or bring-up succeeded, the error is the one for missing credentials, and the
fields are those of the liveness answer, whose authentication flag is set. -/
theorem C18_link_state_after_failed_init (env : Env) (p p' : PipelineLink)
    (effects : List Effect) (e : String)
    (h : p.Init env = { effects := effects, outcome := .ret (p', some e) }) :
    (p'.Version = p.Version ∧ p'.Authentication = p.Authentication ∧
      p'.FsAllow = p.FsAllow ∧
      ∃ eff, bringUp env p = { effects := eff, outcome := .ret (p, some e) }) ∨
    (e = missingCredentials ∧ ∃ eff alive,
      bringUp env p = { effects := eff, outcome := .ret (setValues p alive, none) } ∧
      p'.Version = alive.Version ∧ p'.Authentication = true ∧
      p'.FsAllow = alive.FsAllow ∧ alive.Authentication = true) := by
  rcases Init_error env p p' effects e h with ⟨hp, hb⟩ | ⟨he, eff, alive, hb, hp, ha⟩
  · subst hp
    exact Or.inl ⟨rfl, rfl, rfl, hb⟩
  · subst hp
    exact Or.inr ⟨he, eff, alive, hb, rfl, ha, rfl, ha⟩

/-- C18, amended, at the default link, whose webservice is down and which may not start one:
`Init` fails and the fields are as before. -/
theorem C18_link_state_after_failed_init_witness :
    sampleLink.Init sampleEnv =
      { effects := [.SetUrl "http://localhost:8181/ws/"],
        outcome := .ret (sampleLink, some (unreachable "connection refused")) } ∧
    ((sampleLink.Version = sampleLink.Version ∧
        sampleLink.Authentication = sampleLink.Authentication ∧
        sampleLink.FsAllow = sampleLink.FsAllow ∧
        ∃ eff, bringUp sampleEnv sampleLink =
          { effects := eff,
            outcome := .ret (sampleLink, some (unreachable "connection refused")) }) ∨
      (unreachable "connection refused" = missingCredentials ∧ ∃ eff alive,
        bringUp sampleEnv sampleLink =
          { effects := eff, outcome := .ret (setValues sampleLink alive, none) } ∧
        sampleLink.Version = alive.Version ∧ sampleLink.Authentication = true ∧
        sampleLink.FsAllow = alive.FsAllow ∧ alive.Authentication = true)) :=
  ⟨Init_after_failed_bringUp sampleEnv sampleLink sampleLink [] _ rfl,
    C18_link_state_after_failed_init sampleEnv sampleLink sampleLink
      [.SetUrl "http://localhost:8181/ws/"] (unreachable "connection refused")
      (Init_after_failed_bringUp sampleEnv sampleLink sampleLink [] _ rfl)⟩

end cli
